import Mathlib

/-!
Verification of the `rwa_platform` Move package (carbon-credit RWA platform).

This file gives a shallow embedding of the two on-chain modules
`rwa_platform::carbon_nft_manager` and `rwa_platform::marketplace`
(the registry-backed version of the marketplace module, whose
`list_item` / `buy_item` / `cancel_listing` maintain a shared
`ListingRegistry`), together with the host-runtime object model the
contracts rely on:

* objects (`CarbonCreditNFT`, `Listing`, `RetirementCertificate`,
  `Coin<IOTA>`) live in a global `SystemState`, each owned by an address,
  shared (listings), or frozen (immutable);
* `object::new` hands out fresh ids from a monotone counter;
* each externally-submitted transaction is serializable and atomic: if the
  Move code aborts (an `assert!` failure) or the runtime cannot resolve an
  object argument, the whole transaction has no effect (`execTx` reverts).

Machine integers (`u64`, `u8`, `vector<u8>`, `address`) are embedded as
`Nat` / `List Nat`: the contracts perform no arithmetic on them, only
creation, copying and comparison, so no overflow reasoning is needed.
-/

/-- IOTA address. -/
abbrev Addr := Nat

/-- Object id (`UID` / `ID` in Move). -/
abbrev ObjId := Nat

/-- `vector<u8>` payload (verification ids). -/
abbrev Bytes := List Nat

/-- `carbon_nft_manager::CarbonCreditNFT` — a unique, verified carbon
credit tied to a specific event (`has key, store`). -/
structure CarbonCreditNFT where
  id : ObjId
  amount_kg_co2e : Nat
  activity_type : Nat
  verification_id : Bytes
  issuance_timestamp_ms : Nat
deriving DecidableEq

/-- `carbon_nft_manager::RetirementCertificate` — proof of retiring a
`CarbonCreditNFT`. -/
structure RetirementCertificate where
  id : ObjId
  original_nft_id : ObjId
  retirer_address : Addr
  retired_amount_kg_co2e : Nat
  original_verification_id : Bytes
  retirement_timestamp_ms : Nat
deriving DecidableEq

/-- The source declares `public struct RetirementCertificate has key, store`
(carbon_nft_manager.move line 28).  The `store` ability is what lets the
IOTA runtime's `transfer::public_transfer` move an owned object of this
type to another address without any module code.  (The struct's own doc
comment claims the type "lacks `store`", but the declaration has it.) -/
def RetirementCertificate.hasStoreAbility : Bool := true

/-- `carbon_nft_manager::VerificationRegistry` — shared object preventing
double-minting; `processed_ids` embeds `Table<vector<u8>, bool>`. -/
structure VerificationRegistry where
  processed_ids : List (Bytes × Bool)
deriving DecidableEq

/-- `marketplace::Listing` — an NFT listed for sale; holds the NFT object
itself (escrow). -/
structure Listing where
  id : ObjId
  nft_id : ObjId
  nft : CarbonCreditNFT
  price_micro_iota : Nat
  seller : Addr
deriving DecidableEq

/-- `marketplace::ListingRegistry` — shared object indexing active
listings: a `Table<ID, address>` plus a `vector<ID>` for enumeration. -/
structure ListingRegistry where
  active_listings : List (ObjId × Addr)
  active_listing_ids : List ObjId
deriving DecidableEq

/-- `iota::coin::Coin<IOTA>` — only its id and value matter here. -/
structure Coin where
  id : ObjId
  value : Nat
deriving DecidableEq

/-- The events emitted by the two modules, in emission order. -/
inductive Event
  /-- `carbon_nft_manager::MintNFTEvent` -/
  | mintNFT (nft_id : ObjId) (recipient : Addr) (amount_kg_co2e : Nat)
      (verification_id : Bytes)
  /-- `carbon_nft_manager::RetireNFTEvent` -/
  | retireNFT (retirer : Addr) (nft_id : ObjId) (amount_kg_co2e : Nat)
      (verification_id : Bytes)
  /-- `carbon_nft_manager::CertificateMinted` -/
  | certificateMinted (certificate_id : ObjId) (retirer_address : Addr)
      (retired_amount_kg_co2e : Nat) (original_verification_id : Bytes)
      (retirement_timestamp_ms : Nat)
  /-- `marketplace::ListingCreated` -/
  | listingCreated (listing_id : ObjId) (nft_id : ObjId) (seller : Addr)
      (price_micro_iota : Nat)
  /-- `marketplace::ItemSold` -/
  | itemSold (listing_id : ObjId) (nft_id : ObjId) (seller : Addr)
      (buyer : Addr) (price_micro_iota : Nat)
  /-- `marketplace::ListingCancelled` -/
  | listingCancelled (listing_id : ObjId) (nft_id : ObjId) (seller : Addr)
deriving DecidableEq

/-- `carbon_nft_manager`: abort code of `assert!(amount_kg_co2e > 0, _)`. -/
def EInvalidAmount : Nat := 1

/-- `carbon_nft_manager`: abort code when the verification id was already
processed. -/
def EVerificationIdAlreadyProcessed : Nat := 2

/-- `marketplace`: abort code of the exact-payment check in `buy_item`. -/
def EIncorrectPaymentAmount : Nat := 101

/-- `marketplace`: abort code of the seller check in `cancel_listing`. -/
def ENotSeller : Nat := 102

/-- How a transaction can fail.  `abort code` is a Move `assert!` failure
with a module abort code; `frameworkAbort` is an abort raised inside the
IOTA framework itself (`table::add` on a present key, `table::remove` on a
missing key); `objectUnavailable` is a runtime rejection before the Move
code runs (an object argument that does not exist, is not owned by the
sender, or is frozen). -/
inductive TxError
  | abort (code : Nat)
  | frameworkAbort
  | objectUnavailable
deriving DecidableEq

/-- The slice of `TxContext` the contracts read: `tx_context::sender`,
`object::new` (next fresh id) and `tx_context::epoch_timestamp_ms`. -/
structure TxContext where
  sender : Addr
  freshId : ObjId
  epoch_timestamp_ms : Nat
deriving DecidableEq

/-- `iota::table::Table.contains`. -/
def tableContains {κ ν : Type} [DecidableEq κ] (t : List (κ × ν)) (k : κ) : Bool :=
  t.any (fun p => decide (p.1 = k))

/-- `iota::table::Table.add`: aborts (returns `none`) when the key is
already present, otherwise inserts the binding. -/
def tableAdd {κ ν : Type} [DecidableEq κ] (t : List (κ × ν)) (k : κ) (v : ν) :
    Option (List (κ × ν)) :=
  if tableContains t k then none else some ((k, v) :: t)

/-- `iota::table::Table.remove` minus its abort check (callers guard with
`tableContains`): removes the first binding of the key. -/
def tableRemove {κ ν : Type} [DecidableEq κ] (t : List (κ × ν)) (k : κ) :
    List (κ × ν) :=
  t.eraseP (fun p => decide (p.1 = k))

/-- `std::vector::index_of`: `(true, first index of x)` when present,
`(false, 0)` otherwise. -/
def vectorIndexOf (v : List ObjId) (x : ObjId) : Bool × Nat :=
  match v with
  | [] => (false, 0)
  | y :: t =>
    if y = x then (true, 0)
    else
      match vectorIndexOf t x with
      | (true, i) => (true, i + 1)
      | (false, _) => (false, 0)

/-- `std::vector::swap_remove`: overwrite position `i` with the last
element, then pop the last element.  (The Move function aborts when the
vector is empty; callers only invoke it at a found index.) -/
def vectorSwapRemove (v : List ObjId) (i : Nat) : List ObjId :=
  (v.set i (v.getLast?.getD 0)).dropLast

/-- `carbon_nft_manager::mint_nft` (lines 153–190), from the `assert!`s
on.  The `&AdminCap` authorization argument is enforced by the runtime
wrapper `runTx` (the sender must own the `AdminCap` object to pass it).
Returns the updated registry, the transfer of the fresh NFT to the
recipient, and the emitted events. -/
def mint_nft (registry : VerificationRegistry) (recipient : Addr)
    (amount_kg_co2e : Nat) (activity_type : Nat) (verification_id : Bytes)
    (ctx : TxContext) :
    Except TxError (VerificationRegistry × (Addr × CarbonCreditNFT) × List Event) :=
  -- 1. Validate input: assert!(amount_kg_co2e > 0, EInvalidAmount)
  if amount_kg_co2e > 0 then
    -- 2. Prevent double minting
    if tableContains registry.processed_ids verification_id then
      .error (.abort EVerificationIdAlreadyProcessed)
    else
      match tableAdd registry.processed_ids verification_id true with
      | none => .error .frameworkAbort
      | some t =>
        -- 3. Create the NFT object
        let nft : CarbonCreditNFT :=
          { id := ctx.freshId
            amount_kg_co2e := amount_kg_co2e
            activity_type := activity_type
            verification_id := verification_id
            issuance_timestamp_ms := ctx.epoch_timestamp_ms }
        -- 4. Emit mint event; 5. transfer NFT to recipient
        .ok ({ processed_ids := t }, (recipient, nft),
             [.mintNFT nft.id recipient amount_kg_co2e verification_id])
  else .error (.abort EInvalidAmount)

/-- `carbon_nft_manager::retire_nft` (lines 194–243): consumes the NFT,
emits `RetireNFTEvent` then `CertificateMinted`, and transfers a fresh
`RetirementCertificate` to the sender.  No failure path. -/
def retire_nft (nft : CarbonCreditNFT) (ctx : TxContext) :
    (Addr × RetirementCertificate) × List Event :=
  let retirer := ctx.sender
  let retirement_timestamp := ctx.epoch_timestamp_ms
  let certificate : RetirementCertificate :=
    { id := ctx.freshId
      original_nft_id := nft.id
      retirer_address := retirer
      retired_amount_kg_co2e := nft.amount_kg_co2e
      original_verification_id := nft.verification_id
      retirement_timestamp_ms := retirement_timestamp }
  ((retirer, certificate),
   [.retireNFT retirer nft.id nft.amount_kg_co2e nft.verification_id,
    .certificateMinted certificate.id retirer nft.amount_kg_co2e
      nft.verification_id retirement_timestamp])

/-- `marketplace::list_item` (lines 235–270): builds the `Listing` holding
the NFT, registers `listing_id -> seller` in the registry table, appends
the id to the enumeration vector, and shares the listing. -/
def list_item (registry : ListingRegistry) (nft : CarbonCreditNFT)
    (price_micro_iota : Nat) (ctx : TxContext) :
    Except TxError (ListingRegistry × Listing × List Event) :=
  let sender := ctx.sender
  let nft_original_id := nft.id
  let listing : Listing :=
    { id := ctx.freshId
      nft_id := nft_original_id
      nft := nft
      price_micro_iota := price_micro_iota
      seller := sender }
  match tableAdd registry.active_listings listing.id sender with
  | none => .error .frameworkAbort
  | some tbl =>
    .ok ({ active_listings := tbl
           active_listing_ids := registry.active_listing_ids ++ [listing.id] },
         listing,
         [.listingCreated listing.id nft_original_id sender price_micro_iota])

/-- `marketplace::buy_item` (lines 273–324): checks exact payment, removes
the listing from the registry table and (if found) from the enumeration
vector, transfers the NFT to the buyer and the payment coin to the seller,
and deletes the listing.  Returns the updated registry, both transfers and
the event. -/
def buy_item (registry : ListingRegistry) (listing : Listing) (payment : Coin)
    (ctx : TxContext) :
    Except TxError
      (ListingRegistry × (Addr × CarbonCreditNFT) × (Addr × Coin) × List Event) :=
  let buyer := ctx.sender
  let listing_obj_id := listing.id
  -- assert!(coin::value(&payment) == listing.price_micro_iota, _)
  if payment.value = listing.price_micro_iota then
    -- table::remove aborts when the key is absent
    if tableContains registry.active_listings listing_obj_id then
      let tbl := tableRemove registry.active_listings listing_obj_id
      let found_index := vectorIndexOf registry.active_listing_ids listing_obj_id
      let ids :=
        if found_index.1 then
          vectorSwapRemove registry.active_listing_ids found_index.2
        else registry.active_listing_ids
      .ok ({ active_listings := tbl, active_listing_ids := ids },
           (buyer, listing.nft), (listing.seller, payment),
           [.itemSold listing_obj_id listing.nft_id listing.seller buyer
              listing.price_micro_iota])
    else .error .frameworkAbort
  else .error (.abort EIncorrectPaymentAmount)

/-- `marketplace::cancel_listing` (lines 327–371): checks the sender is
the recorded seller, removes the listing from table and vector, and
returns the NFT to the seller. -/
def cancel_listing (registry : ListingRegistry) (listing : Listing)
    (ctx : TxContext) :
    Except TxError (ListingRegistry × (Addr × CarbonCreditNFT) × List Event) :=
  let sender := ctx.sender
  let listing_obj_id := listing.id
  -- assert!(sender == listing.seller, ENotSeller)
  if sender = listing.seller then
    if tableContains registry.active_listings listing_obj_id then
      let tbl := tableRemove registry.active_listings listing_obj_id
      let found_index := vectorIndexOf registry.active_listing_ids listing_obj_id
      let ids :=
        if found_index.1 then
          vectorSwapRemove registry.active_listing_ids found_index.2
        else registry.active_listing_ids
      .ok ({ active_listings := tbl, active_listing_ids := ids },
           (listing.seller, listing.nft),
           [.listingCancelled listing_obj_id listing.nft_id listing.seller])
    else .error .frameworkAbort
  else .error (.abort ENotSeller)

/-- `marketplace::get_active_listing_ids` (lines 389–394): returns a copy
of the enumeration vector. -/
def get_active_listing_ids (registry : ListingRegistry) : List ObjId :=
  registry.active_listing_ids

/-- The global ledger state the host runtime maintains around the two
modules: the two shared registries, who owns the `AdminCap`, the four
kinds of objects (address-owned NFTs, shared listings, address-owned
retirement certificates, frozen retirement certificates, address-owned
coins), the event log, the fresh-id counter and the epoch clock. -/
structure SystemState where
  verificationRegistry : VerificationRegistry
  listingRegistry : ListingRegistry
  adminCapOwner : Addr
  nfts : List (Addr × CarbonCreditNFT)
  listings : List Listing
  certs : List (Addr × RetirementCertificate)
  frozenCerts : List RetirementCertificate
  coins : List (Addr × Coin)
  events : List Event
  nextId : ObjId
  timestamp : Nat
deriving DecidableEq

/-- Runtime resolution of an owned `CarbonCreditNFT` argument. -/
def findOwnedNft (nfts : List (Addr × CarbonCreditNFT)) (o : Addr) (i : ObjId) :
    Option CarbonCreditNFT :=
  (nfts.find? (fun p => decide (p.1 = o) && decide (p.2.id = i))).map (·.2)

/-- Removing an owned NFT that was passed by value. -/
def removeOwnedNft (nfts : List (Addr × CarbonCreditNFT)) (o : Addr) (i : ObjId) :
    List (Addr × CarbonCreditNFT) :=
  nfts.eraseP (fun p => decide (p.1 = o) && decide (p.2.id = i))

/-- Runtime resolution of the shared `Listing` argument. -/
def findListing (ls : List Listing) (lid : ObjId) : Option Listing :=
  ls.find? (fun l => decide (l.id = lid))

/-- Removing a shared `Listing` taken by value. -/
def removeListing (ls : List Listing) (lid : ObjId) : List Listing :=
  ls.eraseP (fun l => decide (l.id = lid))

/-- Runtime resolution of an owned `Coin<IOTA>` argument. -/
def findOwnedCoin (cs : List (Addr × Coin)) (o : Addr) (i : ObjId) : Option Coin :=
  (cs.find? (fun p => decide (p.1 = o) && decide (p.2.id = i))).map (·.2)

/-- Removing an owned coin that was passed by value. -/
def removeOwnedCoin (cs : List (Addr × Coin)) (o : Addr) (i : ObjId) :
    List (Addr × Coin) :=
  cs.eraseP (fun p => decide (p.1 = o) && decide (p.2.id = i))

/-- Runtime resolution of an owned `RetirementCertificate` argument.
A frozen certificate is *not* found here: frozen objects cannot be passed
by value. -/
def findOwnedCert (cs : List (Addr × RetirementCertificate)) (o : Addr)
    (i : ObjId) : Option RetirementCertificate :=
  (cs.find? (fun p => decide (p.1 = o) && decide (p.2.id = i))).map (·.2)

/-- Removing an owned retirement certificate that was passed by value. -/
def removeOwnedCert (cs : List (Addr × RetirementCertificate)) (o : Addr)
    (i : ObjId) : List (Addr × RetirementCertificate) :=
  cs.eraseP (fun p => decide (p.1 = o) && decide (p.2.id = i))

/-- The externally-submitted transactions.  The first six invoke the entry
functions of the two modules.  `faucet` models the external payment medium
(spec §6: a fungible `Coin<IOTA>` supply is provided by the environment,
not by this package).  `publicTransferCert` models the IOTA framework's
`transfer::public_transfer` applied to a `RetirementCertificate`, which
the runtime offers for any owned object whose type has the `store`
ability — no module code is involved. -/
inductive Tx
  | mint (sender recipient : Addr) (amount_kg_co2e : Nat)
      (activity_type : Nat) (verification_id : Bytes)
  | listItem (sender : Addr) (nftId : ObjId) (price_micro_iota : Nat)
  | buyItem (sender : Addr) (listingId : ObjId) (coinId : ObjId)
  | cancelListing (sender : Addr) (listingId : ObjId)
  | retire (sender : Addr) (nftId : ObjId)
  | freezeCert (sender : Addr) (certId : ObjId)
  | faucet (owner : Addr) (value : Nat)
  | publicTransferCert (sender recipient : Addr) (certId : ObjId)
deriving DecidableEq

/-- The `TxContext` the runtime hands to an entry function. -/
def execCtx (s : SystemState) (sender : Addr) : TxContext :=
  { sender := sender, freshId := s.nextId, epoch_timestamp_ms := s.timestamp }

/-- One transaction: resolve the object arguments (owned objects must be
owned by the sender; `mint` requires the sender to hold the `AdminCap`),
run the entry function, and apply its object effects.  Errors are returned
to the caller; `execTx` below implements the host's all-or-nothing
commit. -/
def runTx (s : SystemState) (tx : Tx) : Except TxError SystemState :=
  match tx with
  | .mint sender recipient amount act vid =>
    if sender = s.adminCapOwner then
      match mint_nft s.verificationRegistry recipient amount act vid
          (execCtx s sender) with
      | .error e => .error e
      | .ok (reg, transferNft, evs) =>
        .ok { s with
              verificationRegistry := reg
              nfts := transferNft :: s.nfts
              events := s.events ++ evs
              nextId := s.nextId + 1 }
    else .error .objectUnavailable
  | .listItem sender nftId price =>
    match findOwnedNft s.nfts sender nftId with
    | none => .error .objectUnavailable
    | some nft =>
      match list_item s.listingRegistry nft price (execCtx s sender) with
      | .error e => .error e
      | .ok (reg, listing, evs) =>
        .ok { s with
              listingRegistry := reg
              nfts := removeOwnedNft s.nfts sender nftId
              listings := listing :: s.listings
              events := s.events ++ evs
              nextId := s.nextId + 1 }
  | .buyItem sender lid coinId =>
    match findListing s.listings lid with
    | none => .error .objectUnavailable
    | some listing =>
      match findOwnedCoin s.coins sender coinId with
      | none => .error .objectUnavailable
      | some payment =>
        match buy_item s.listingRegistry listing payment (execCtx s sender) with
        | .error e => .error e
        | .ok (reg, transferNft, transferCoin, evs) =>
          .ok { s with
                listingRegistry := reg
                listings := removeListing s.listings lid
                nfts := transferNft :: s.nfts
                coins := transferCoin :: removeOwnedCoin s.coins sender coinId
                events := s.events ++ evs }
  | .cancelListing sender lid =>
    match findListing s.listings lid with
    | none => .error .objectUnavailable
    | some listing =>
      match cancel_listing s.listingRegistry listing (execCtx s sender) with
      | .error e => .error e
      | .ok (reg, transferNft, evs) =>
        .ok { s with
              listingRegistry := reg
              listings := removeListing s.listings lid
              nfts := transferNft :: s.nfts
              events := s.events ++ evs }
  | .retire sender nftId =>
    match findOwnedNft s.nfts sender nftId with
    | none => .error .objectUnavailable
    | some nft =>
      let res := retire_nft nft (execCtx s sender)
      .ok { s with
            nfts := removeOwnedNft s.nfts sender nftId
            certs := res.1 :: s.certs
            events := s.events ++ res.2
            nextId := s.nextId + 1 }
  | .freezeCert sender certId =>
    -- `freeze_my_certificate` is exactly `transfer::freeze_object`.
    match findOwnedCert s.certs sender certId with
    | none => .error .objectUnavailable
    | some cert =>
      .ok { s with
            certs := removeOwnedCert s.certs sender certId
            frozenCerts := cert :: s.frozenCerts }
  | .faucet owner value =>
    .ok { s with
          coins := (owner, { id := s.nextId, value := value }) :: s.coins
          nextId := s.nextId + 1 }
  | .publicTransferCert sender recipient certId =>
    if RetirementCertificate.hasStoreAbility then
      match findOwnedCert s.certs sender certId with
      | none => .error .objectUnavailable
      | some cert =>
        .ok { s with
              certs := (recipient, cert) :: removeOwnedCert s.certs sender certId }
    else .error .objectUnavailable

/-- Host atomicity (spec §5): a failed transaction changes nothing. -/
def execTx (s : SystemState) (tx : Tx) : SystemState :=
  match runTx s tx with
  | .ok s' => s'
  | .error _ => s

/-- Running a list of transactions in order. -/
def execTxList (s : SystemState) (txs : List Tx) : SystemState :=
  txs.foldl execTx s

/-- State after the two `init` functions ran at package publication:
empty registries shared, `AdminCap` transferred to the publisher
(address 0), no objects, fresh ids from 0. -/
def initState : SystemState :=
  { verificationRegistry := { processed_ids := [] }
    listingRegistry := { active_listings := [], active_listing_ids := [] }
    adminCapOwner := 0
    nfts := []
    listings := []
    certs := []
    frozenCerts := []
    coins := []
    events := []
    nextId := 0
    timestamp := 0 }

/-- Every object id reachable from the state (owned, escrowed, frozen). -/
def liveIds (s : SystemState) : List ObjId :=
  s.nfts.map (fun p => p.2.id) ++
  s.listings.map Listing.id ++
  s.listings.map (fun l => l.nft.id) ++
  s.certs.map (fun p => p.2.id) ++
  s.frozenCerts.map RetirementCertificate.id ++
  s.coins.map (fun p => p.2.id)

/-- The invariant maintained by every transaction, used throughout:
active-listing ids are below the fresh-id counter, pairwise distinct, the
registry table is exactly the `id -> seller` image of the undestroyed
listings, and the enumeration vector is a permutation of their ids. -/
abbrev RegInv (s : SystemState) : Prop :=
  (∀ i ∈ s.listings.map Listing.id, i < s.nextId) ∧
  (s.listings.map Listing.id).Nodup ∧
  s.listingRegistry.active_listings = s.listings.map (fun l => (l.id, l.seller)) ∧
  List.Perm s.listingRegistry.active_listing_ids (s.listings.map Listing.id)

/-- A state the system can actually be in: reachable from the
freshly-published package state by some sequence of transactions. -/
def Reachable (s : SystemState) : Prop :=
  ∃ txs : List Tx, execTxList initState txs = s

instance : DecidableEq (Except TxError SystemState) := fun a b => by
  cases a <;> cases b
  case ok.ok x y =>
    exact if h : x = y then .isTrue (by rw [h]) else .isFalse (by simp [h])
  case error.error x y =>
    exact if h : x = y then .isTrue (by rw [h]) else .isFalse (by simp [h])
  all_goals exact .isFalse (by simp)

-- Scratch sanity checks (mint, list, buy round trip).
example :
    (execTxList initState
      [.mint 0 1 5000 1 [1], .faucet 2 1000, .listItem 1 0 1000]).listings =
    [{ id := 2, nft_id := 0,
       nft := { id := 0, amount_kg_co2e := 5000, activity_type := 1,
                verification_id := [1], issuance_timestamp_ms := 0 },
       price_micro_iota := 1000, seller := 1 }] := by decide

example :
    (execTxList initState
      [.mint 0 1 5000 1 [1], .faucet 2 1000, .listItem 1 0 1000,
       .buyItem 2 2 1]).nfts =
    [(2, { id := 0, amount_kg_co2e := 5000, activity_type := 1,
           verification_id := [1], issuance_timestamp_ms := 0 })] := by decide

example :
    (execTxList initState
      [.mint 0 1 5000 1 [1], .faucet 2 1000, .listItem 1 0 1000,
       .buyItem 2 2 1]).coins = [(1, { id := 1, value := 1000 })] := by decide

example :
    (execTxList initState
      [.mint 0 1 5000 1 [1], .faucet 2 1000, .listItem 1 0 1000,
       .buyItem 2 2 1]).listingRegistry =
    { active_listings := [], active_listing_ids := [] } := by decide

example : runTx (execTxList initState [.mint 0 1 5000 1 [1]])
    (.mint 0 1 5000 1 [1]) =
    .error (.abort EVerificationIdAlreadyProcessed) := by decide

/-! ### Generic list lemmas about the table / vector primitives -/

theorem tableContains_iff {κ ν : Type} [DecidableEq κ]
    (t : List (κ × ν)) (k : κ) :
    tableContains t k = true ↔ k ∈ t.map Prod.fst := by
  simp [tableContains, List.any_eq_true, List.mem_map]

theorem perm_cons_eraseP {α : Type} (p : α → Bool) {l : List α} {a : α}
    (h : l.find? p = some a) : List.Perm l (a :: l.eraseP p) := by
  induction l with
  | nil => simp at h
  | cons b t ih =>
    by_cases pb : p b
    · rw [List.find?_cons_of_pos _ pb] at h
      injection h with h; subst h
      rw [List.eraseP_cons_of_pos pb]
    · rw [List.find?_cons_of_neg _ pb] at h
      rw [List.eraseP_cons_of_neg pb]
      exact ((ih h).cons b).trans (List.Perm.swap a b _)

theorem map_eraseP_eq_erase {α β : Type} [DecidableEq β]
    (f : α → β) (k : β) (l : List α) :
    (l.eraseP (fun x => decide (f x = k))).map f = (l.map f).erase k := by
  induction l with
  | nil => rfl
  | cons a t ih =>
    by_cases ha : f a = k
    · rw [List.eraseP_cons_of_pos (by simpa using ha)]
      simp [ha, List.erase_cons_head]
    · rw [List.eraseP_cons_of_neg (by simpa using ha)]
      simp only [List.map_cons]
      rw [List.erase_cons_tail (by simpa using ha), ih]

theorem find?_eraseP_none {α : Type} (p : α → Bool) (l : List α)
    (h : l.countP p ≤ 1) : (l.eraseP p).find? p = none := by
  induction l with
  | nil => rfl
  | cons a t ih =>
    by_cases pa : p a
    · rw [List.eraseP_cons_of_pos pa]
      rw [List.countP_cons_of_pos _ _ pa] at h
      exact List.find?_eq_none.mpr fun x hx px =>
        (List.countP_eq_zero.mp (Nat.le_zero.mp (Nat.le_of_succ_le_succ h)) x hx) px
    · rw [List.eraseP_cons_of_neg pa]
      rw [List.find?_cons_of_neg _ pa]
      rw [List.countP_cons_of_neg _ _ pa] at h
      exact ih h

theorem vectorSwapRemove_cons_succ (y c : ObjId) (t' : List ObjId) (i : Nat) :
    vectorSwapRemove (y :: c :: t') (i + 1) = y :: vectorSwapRemove (c :: t') i := by
  unfold vectorSwapRemove
  rw [List.getLast?_cons_cons]
  cases i with
  | zero => rfl
  | succ j =>
    show (y :: (c :: t').set (j + 1) _).dropLast = _
    cases t' <;> rfl

theorem vectorSwapRemove_zero_perm (y : ObjId) (t : List ObjId) :
    List.Perm (vectorSwapRemove (y :: t) 0) t := by
  rcases List.eq_nil_or_concat t with h | ⟨l', z, h⟩
  · subst h; rfl
  · subst h
    simp only [List.concat_eq_append]
    unfold vectorSwapRemove
    have hlast : (y :: (l' ++ [z])).getLast? = some z := by
      rw [show y :: (l' ++ [z]) = (y :: l') ++ [z] from rfl, List.getLast?_concat]
    rw [hlast]
    show ((z :: l') ++ [z]).dropLast.Perm (l' ++ [z])
    rw [List.dropLast_concat]
    exact (List.perm_append_singleton z l').symm

theorem vectorIndexOf_found {v : List ObjId} {x : ObjId} (h : x ∈ v) :
    (vectorIndexOf v x).1 = true ∧
    List.Perm (vectorSwapRemove v (vectorIndexOf v x).2) (v.erase x) := by
  induction v with
  | nil => cases h
  | cons y t ih =>
    by_cases hy : y = x
    · subst hy
      refine ⟨by simp [vectorIndexOf], ?_⟩
      have h0 : vectorIndexOf (y :: t) y = (true, 0) := by simp [vectorIndexOf]
      rw [h0, List.erase_cons_head]
      exact vectorSwapRemove_zero_perm y t
    · have hx : x ∈ t := (List.mem_cons.mp h).resolve_left fun e => hy e.symm
      obtain ⟨h1, h2⟩ := ih hx
      rcases hvp : vectorIndexOf t x with ⟨b, i⟩
      rw [hvp] at h1 h2
      simp only at h1
      subst h1
      have hrec : vectorIndexOf (y :: t) x = (true, i + 1) := by
        simp [vectorIndexOf, hy, hvp]
      rw [hrec]
      refine ⟨rfl, ?_⟩
      cases t with
      | nil => cases hx
      | cons c t' =>
        show (vectorSwapRemove (y :: c :: t') (i + 1)).Perm ((y :: c :: t').erase x)
        rw [vectorSwapRemove_cons_succ, List.erase_cons_tail (by simpa using hy)]
        exact h2.cons y

/-! ### Inversion lemmas for the entry functions and object resolution -/

theorem find_pair_eq_some {β : Type} {f : β → ObjId} {l : List (Addr × β)}
    {o : Addr} {i : ObjId} {x : β}
    (h : (l.find? (fun p => decide (p.1 = o) && decide (f p.2 = i))).map (·.2) =
      some x) :
    (o, x) ∈ l ∧ f x = i := by
  cases hf : l.find? (fun p => decide (p.1 = o) && decide (f p.2 = i)) with
  | none => rw [hf] at h; cases h
  | some p =>
    rw [hf] at h
    simp only [Option.map_some'] at h
    have hp := List.find?_some hf
    simp only [Bool.and_eq_true, decide_eq_true_eq] at hp
    have hmem := List.mem_of_find?_eq_some hf
    injection h with h
    subst h
    rw [← hp.1, Prod.mk.eta]
    exact ⟨hmem, hp.2⟩

theorem findOwnedNft_eq_some {nfts : List (Addr × CarbonCreditNFT)} {o : Addr}
    {i : ObjId} {nft : CarbonCreditNFT} (h : findOwnedNft nfts o i = some nft) :
    (o, nft) ∈ nfts ∧ nft.id = i :=
  find_pair_eq_some (f := CarbonCreditNFT.id) h

theorem findOwnedCoin_eq_some {cs : List (Addr × Coin)} {o : Addr} {i : ObjId}
    {c : Coin} (h : findOwnedCoin cs o i = some c) : (o, c) ∈ cs ∧ c.id = i :=
  find_pair_eq_some (f := Coin.id) h

theorem findOwnedCert_eq_some {cs : List (Addr × RetirementCertificate)}
    {o : Addr} {i : ObjId} {c : RetirementCertificate}
    (h : findOwnedCert cs o i = some c) : (o, c) ∈ cs ∧ c.id = i :=
  find_pair_eq_some (f := RetirementCertificate.id) h

theorem findListing_eq_some {ls : List Listing} {lid : ObjId} {l : Listing}
    (h : findListing ls lid = some l) : l ∈ ls ∧ l.id = lid :=
  ⟨List.mem_of_find?_eq_some h, by simpa using List.find?_some h⟩

theorem mint_nft_ok {registry : VerificationRegistry} {recipient : Addr}
    {amount act : Nat} {vid : Bytes} {ctx : TxContext}
    {out : VerificationRegistry × (Addr × CarbonCreditNFT) × List Event}
    (h : mint_nft registry recipient amount act vid ctx = .ok out) :
    0 < amount ∧ tableContains registry.processed_ids vid = false ∧
    out = ({ processed_ids := (vid, true) :: registry.processed_ids },
           (recipient,
            { id := ctx.freshId, amount_kg_co2e := amount, activity_type := act,
              verification_id := vid,
              issuance_timestamp_ms := ctx.epoch_timestamp_ms }),
           [.mintNFT ctx.freshId recipient amount vid]) := by
  simp only [mint_nft, tableAdd] at h
  split at h
  · split at h
    · cases h
    · next hc =>
      refine ⟨by omega, by simpa using hc, ?_⟩
      injection h with h
      exact h.symm
  · cases h

theorem list_item_ok {registry : ListingRegistry} {nft : CarbonCreditNFT}
    {price : Nat} {ctx : TxContext}
    {out : ListingRegistry × Listing × List Event}
    (h : list_item registry nft price ctx = .ok out) :
    tableContains registry.active_listings ctx.freshId = false ∧
    out = ({ active_listings := (ctx.freshId, ctx.sender) :: registry.active_listings,
             active_listing_ids := registry.active_listing_ids ++ [ctx.freshId] },
           { id := ctx.freshId, nft_id := nft.id, nft := nft,
             price_micro_iota := price, seller := ctx.sender },
           [.listingCreated ctx.freshId nft.id ctx.sender price]) := by
  simp only [list_item, tableAdd] at h
  split at h
  · cases h
  · next tbl hc =>
    have hcc : tableContains registry.active_listings ctx.freshId = false ∧
        (ctx.freshId, ctx.sender) :: registry.active_listings = tbl := by
      simpa using hc
    refine ⟨hcc.1, ?_⟩
    injection h with h
    rw [← h, ← hcc.2]

theorem buy_item_ok {registry : ListingRegistry} {listing : Listing}
    {payment : Coin} {ctx : TxContext}
    {out : ListingRegistry × (Addr × CarbonCreditNFT) × (Addr × Coin) × List Event}
    (h : buy_item registry listing payment ctx = .ok out) :
    payment.value = listing.price_micro_iota ∧
    tableContains registry.active_listings listing.id = true ∧
    out = ({ active_listings := tableRemove registry.active_listings listing.id,
             active_listing_ids :=
               if (vectorIndexOf registry.active_listing_ids listing.id).1 then
                 vectorSwapRemove registry.active_listing_ids
                   (vectorIndexOf registry.active_listing_ids listing.id).2
               else registry.active_listing_ids },
           (ctx.sender, listing.nft), (listing.seller, payment),
           [.itemSold listing.id listing.nft_id listing.seller ctx.sender
              listing.price_micro_iota]) := by
  simp only [buy_item] at h
  split at h
  · split at h
    · next hc =>
      injection h with h
      exact ⟨by assumption, hc, h.symm⟩
    · cases h
  · cases h

theorem cancel_listing_ok {registry : ListingRegistry} {listing : Listing}
    {ctx : TxContext} {out : ListingRegistry × (Addr × CarbonCreditNFT) × List Event}
    (h : cancel_listing registry listing ctx = .ok out) :
    ctx.sender = listing.seller ∧
    tableContains registry.active_listings listing.id = true ∧
    out = ({ active_listings := tableRemove registry.active_listings listing.id,
             active_listing_ids :=
               if (vectorIndexOf registry.active_listing_ids listing.id).1 then
                 vectorSwapRemove registry.active_listing_ids
                   (vectorIndexOf registry.active_listing_ids listing.id).2
               else registry.active_listing_ids },
           (listing.seller, listing.nft),
           [.listingCancelled listing.id listing.nft_id listing.seller]) := by
  simp only [cancel_listing] at h
  split at h
  · split at h
    · next hc =>
      injection h with h
      exact ⟨by assumption, hc, h.symm⟩
    · cases h
  · cases h

/-! ### Fresh-id bookkeeping: the counter is monotone, and a destroyed id
never becomes live again -/

theorem runTx_ok_nextId {s : SystemState} {tx : Tx} {s' : SystemState}
    (h : runTx s tx = .ok s') : s.nextId ≤ s'.nextId := by
  cases tx <;> simp only [runTx] at h
  all_goals repeat' split at h
  all_goals try cases h
  all_goals try exact Nat.le_succ _
  all_goals try exact Nat.le_refl _

theorem nextId_execTx_mono (s : SystemState) (tx : Tx) :
    s.nextId ≤ (execTx s tx).nextId := by
  unfold execTx
  cases htx : runTx s tx with
  | error e => exact Nat.le_refl _
  | ok s' => exact runTx_ok_nextId htx

theorem mem_map_eraseP {α β : Type} (f : α → β) (p : α → Bool) {l : List α}
    {x : β} (hx : x ∈ (l.eraseP p).map f) : x ∈ l.map f :=
  ((List.eraseP_sublist l).map f).mem hx

theorem liveIds_of_nfts {s : SystemState} {i : ObjId}
    (h : i ∈ s.nfts.map (fun p => p.2.id)) : i ∈ liveIds s :=
  List.mem_append_left _ (List.mem_append_left _ (List.mem_append_left _
    (List.mem_append_left _ (List.mem_append_left _ h))))

theorem liveIds_of_listings_id {s : SystemState} {i : ObjId}
    (h : i ∈ s.listings.map Listing.id) : i ∈ liveIds s :=
  List.mem_append_left _ (List.mem_append_left _ (List.mem_append_left _
    (List.mem_append_left _ (List.mem_append_right _ h))))

theorem liveIds_of_listings_nft {s : SystemState} {i : ObjId}
    (h : i ∈ s.listings.map (fun l => l.nft.id)) : i ∈ liveIds s :=
  List.mem_append_left _ (List.mem_append_left _ (List.mem_append_left _
    (List.mem_append_right _ h)))

theorem liveIds_of_certs {s : SystemState} {i : ObjId}
    (h : i ∈ s.certs.map (fun p => p.2.id)) : i ∈ liveIds s :=
  List.mem_append_left _ (List.mem_append_left _ (List.mem_append_right _ h))

theorem liveIds_of_frozen {s : SystemState} {i : ObjId}
    (h : i ∈ s.frozenCerts.map RetirementCertificate.id) : i ∈ liveIds s :=
  List.mem_append_left _ (List.mem_append_right _ h)

theorem liveIds_of_coins {s : SystemState} {i : ObjId}
    (h : i ∈ s.coins.map (fun p => p.2.id)) : i ∈ liveIds s :=
  List.mem_append_right _ h

/-- Every object id live after a transaction was either live before it or
was freshly allocated (is at least the old counter value). -/
theorem liveIds_runTx_ok {s : SystemState} {tx : Tx} {s' : SystemState}
    (h : runTx s tx = .ok s') :
    ∀ i ∈ liveIds s', i ∈ liveIds s ∨ s.nextId ≤ i := by
  cases tx with
  | mint sender recipient amount act vid =>
    simp only [runTx] at h
    split at h
    · split at h
      · cases h
      · rename_i reg transferNft evs heq
        obtain ⟨_, _, hout⟩ := mint_nft_ok heq
        simp only [Prod.mk.injEq] at hout
        obtain ⟨hreg, hnft, hevs⟩ := hout
        subst hreg hnft hevs
        injection h with h
        subst h
        intro i hi
        simp only [liveIds, execCtx, List.map_cons, List.mem_append,
          List.mem_cons] at hi
        rcases hi with (((((h | h) | h) | h) | h) | h) | h
        · exact .inr (Nat.le_of_eq h.symm)
        · exact .inl (liveIds_of_nfts h)
        · exact .inl (liveIds_of_listings_id h)
        · exact .inl (liveIds_of_listings_nft h)
        · exact .inl (liveIds_of_certs h)
        · exact .inl (liveIds_of_frozen h)
        · exact .inl (liveIds_of_coins h)
    · cases h
  | listItem sender nftId price =>
    simp only [runTx] at h
    split at h
    · cases h
    · rename_i nft heqn
      split at h
      · cases h
      · rename_i reg listing evs heq
        obtain ⟨hcon, hout⟩ := list_item_ok heq
        simp only [Prod.mk.injEq] at hout
        obtain ⟨hreg, hlst, hevs⟩ := hout
        subst hreg hlst hevs
        injection h with h
        subst h
        obtain ⟨hmemn, hidn⟩ := findOwnedNft_eq_some heqn
        have hnm : nft.id ∈ s.nfts.map (fun p => p.2.id) :=
          List.mem_map_of_mem _ hmemn
        intro i hi
        simp only [liveIds, execCtx, List.map_cons, List.mem_append,
          List.mem_cons] at hi
        rcases hi with ((((h | (h | h)) | (h | h)) | h) | h) | h
        · exact .inl (liveIds_of_nfts (mem_map_eraseP _ _ h))
        · exact .inr (Nat.le_of_eq h.symm)
        · exact .inl (liveIds_of_listings_id h)
        · exact .inl (liveIds_of_nfts (h ▸ hnm))
        · exact .inl (liveIds_of_listings_nft h)
        · exact .inl (liveIds_of_certs h)
        · exact .inl (liveIds_of_frozen h)
        · exact .inl (liveIds_of_coins h)
  | buyItem sender lid coinId =>
    simp only [runTx] at h
    split at h
    · cases h
    · rename_i listing heql
      split at h
      · cases h
      · rename_i payment heqc
        split at h
        · cases h
        · rename_i reg transferNft transferCoin evs heq
          obtain ⟨hpay, hcon, hout⟩ := buy_item_ok heq
          simp only [Prod.mk.injEq] at hout
          obtain ⟨hreg, hnft, hcoin, hevs⟩ := hout
          subst hreg hnft hcoin hevs
          injection h with h
          subst h
          obtain ⟨hmeml, hidl⟩ := findListing_eq_some heql
          obtain ⟨hmemc, hidc⟩ := findOwnedCoin_eq_some heqc
          have hlm : listing.nft.id ∈ s.listings.map (fun l => l.nft.id) :=
            List.mem_map_of_mem _ hmeml
          have hcm : payment.id ∈ s.coins.map (fun p => p.2.id) :=
            List.mem_map_of_mem _ hmemc
          intro i hi
          simp only [liveIds, execCtx, List.map_cons, List.mem_append,
            List.mem_cons] at hi
          rcases hi with (((((h | h) | h) | h) | h) | h) | (h | h)
          · exact .inl (liveIds_of_listings_nft (h ▸ hlm))
          · exact .inl (liveIds_of_nfts h)
          · exact .inl (liveIds_of_listings_id (mem_map_eraseP _ _ h))
          · exact .inl (liveIds_of_listings_nft (mem_map_eraseP _ _ h))
          · exact .inl (liveIds_of_certs h)
          · exact .inl (liveIds_of_frozen h)
          · exact .inl (liveIds_of_coins (h ▸ hcm))
          · exact .inl (liveIds_of_coins (mem_map_eraseP _ _ h))
  | cancelListing sender lid =>
    simp only [runTx] at h
    split at h
    · cases h
    · rename_i listing heql
      split at h
      · cases h
      · rename_i reg transferNft evs heq
        obtain ⟨hsel, hcon, hout⟩ := cancel_listing_ok heq
        simp only [Prod.mk.injEq] at hout
        obtain ⟨hreg, hnft, hevs⟩ := hout
        subst hreg hnft hevs
        injection h with h
        subst h
        obtain ⟨hmeml, hidl⟩ := findListing_eq_some heql
        have hlm : listing.nft.id ∈ s.listings.map (fun l => l.nft.id) :=
          List.mem_map_of_mem _ hmeml
        intro i hi
        simp only [liveIds, execCtx, List.map_cons, List.mem_append,
          List.mem_cons] at hi
        rcases hi with (((((h | h) | h) | h) | h) | h) | h
        · exact .inl (liveIds_of_listings_nft (h ▸ hlm))
        · exact .inl (liveIds_of_nfts h)
        · exact .inl (liveIds_of_listings_id (mem_map_eraseP _ _ h))
        · exact .inl (liveIds_of_listings_nft (mem_map_eraseP _ _ h))
        · exact .inl (liveIds_of_certs h)
        · exact .inl (liveIds_of_frozen h)
        · exact .inl (liveIds_of_coins h)
  | retire sender nftId =>
    simp only [runTx] at h
    split at h
    · cases h
    · rename_i nft heqn
      injection h with h
      subst h
      intro i hi
      simp only [liveIds, retire_nft, execCtx, List.map_cons, List.mem_append,
        List.mem_cons] at hi
      rcases hi with ((((h | h) | h) | (h | h)) | h) | h
      · exact .inl (liveIds_of_nfts (mem_map_eraseP _ _ h))
      · exact .inl (liveIds_of_listings_id h)
      · exact .inl (liveIds_of_listings_nft h)
      · exact .inr (Nat.le_of_eq h.symm)
      · exact .inl (liveIds_of_certs h)
      · exact .inl (liveIds_of_frozen h)
      · exact .inl (liveIds_of_coins h)
  | freezeCert sender certId =>
    simp only [runTx] at h
    split at h
    · cases h
    · rename_i cert heqc
      injection h with h
      subst h
      obtain ⟨hmemc, hidc⟩ := findOwnedCert_eq_some heqc
      have hcm : cert.id ∈ s.certs.map (fun p => p.2.id) :=
        List.mem_map_of_mem _ hmemc
      intro i hi
      simp only [liveIds, List.map_cons, List.mem_append, List.mem_cons] at hi
      rcases hi with ((((h | h) | h) | h) | (h | h)) | h
      · exact .inl (liveIds_of_nfts h)
      · exact .inl (liveIds_of_listings_id h)
      · exact .inl (liveIds_of_listings_nft h)
      · exact .inl (liveIds_of_certs (mem_map_eraseP _ _ h))
      · exact .inl (liveIds_of_certs (h ▸ hcm))
      · exact .inl (liveIds_of_frozen h)
      · exact .inl (liveIds_of_coins h)
  | faucet owner value =>
    simp only [runTx] at h
    injection h with h
    subst h
    intro i hi
    simp only [liveIds, List.map_cons, List.mem_append, List.mem_cons] at hi
    rcases hi with ((((h | h) | h) | h) | h) | (h | h)
    · exact .inl (liveIds_of_nfts h)
    · exact .inl (liveIds_of_listings_id h)
    · exact .inl (liveIds_of_listings_nft h)
    · exact .inl (liveIds_of_certs h)
    · exact .inl (liveIds_of_frozen h)
    · exact .inr (Nat.le_of_eq h.symm)
    · exact .inl (liveIds_of_coins h)
  | publicTransferCert sender recipient certId =>
    simp only [runTx] at h
    split at h
    · split at h
      · cases h
      · rename_i cert heqc
        injection h with h
        subst h
        obtain ⟨hmemc, hidc⟩ := findOwnedCert_eq_some heqc
        have hcm : cert.id ∈ s.certs.map (fun p => p.2.id) :=
          List.mem_map_of_mem _ hmemc
        intro i hi
        simp only [liveIds, List.map_cons, List.mem_append, List.mem_cons] at hi
        rcases hi with ((((h | h) | h) | (h | h)) | h) | h
        · exact .inl (liveIds_of_nfts h)
        · exact .inl (liveIds_of_listings_id h)
        · exact .inl (liveIds_of_listings_nft h)
        · exact .inl (liveIds_of_certs (h ▸ hcm))
        · exact .inl (liveIds_of_certs (mem_map_eraseP _ _ h))
        · exact .inl (liveIds_of_frozen h)
        · exact .inl (liveIds_of_coins h)
    · cases h

theorem liveIds_execTx (s : SystemState) (tx : Tx) :
    ∀ i ∈ liveIds (execTx s tx), i ∈ liveIds s ∨ s.nextId ≤ i := by
  unfold execTx
  cases htx : runTx s tx with
  | error e => exact fun i hi => .inl hi
  | ok s' => exact liveIds_runTx_ok htx

/-- A destroyed id (below the counter and not live) stays destroyed. -/
theorem deadId_execTx {s : SystemState} {d : ObjId} (tx : Tx)
    (h1 : d < s.nextId) (h2 : d ∉ liveIds s) :
    d < (execTx s tx).nextId ∧ d ∉ liveIds (execTx s tx) := by
  refine ⟨Nat.lt_of_lt_of_le h1 (nextId_execTx_mono s tx), fun hmem => ?_⟩
  rcases liveIds_execTx s tx d hmem with h | h
  · exact h2 h
  · exact absurd h (Nat.not_le.mpr h1)

theorem deadId_execTxList {d : ObjId} :
    ∀ (txs : List Tx) (s : SystemState), d < s.nextId → d ∉ liveIds s →
    d < (execTxList s txs).nextId ∧ d ∉ liveIds (execTxList s txs) := by
  intro txs
  induction txs with
  | nil => exact fun s h1 h2 => ⟨h1, h2⟩
  | cons tx rest ih =>
    intro s h1 h2
    have hstep := deadId_execTx tx h1 h2
    exact ih (execTx s tx) hstep.1 hstep.2

theorem tableRemove_map_listing (ls : List Listing) (k : ObjId) :
    tableRemove (ls.map (fun l => (l.id, l.seller))) k =
    (removeListing ls k).map (fun l => (l.id, l.seller)) := by
  unfold tableRemove removeListing
  rw [List.eraseP_map]
  rfl

theorem map_id_removeListing (ls : List Listing) (k : ObjId) :
    (removeListing ls k).map Listing.id = (ls.map Listing.id).erase k :=
  map_eraseP_eq_erase Listing.id k ls

/-- The registry invariant is preserved by every successful transaction. -/
theorem regInv_runTx_ok {s : SystemState} {tx : Tx} {s' : SystemState}
    (hInv : RegInv s) (h : runTx s tx = .ok s') : RegInv s' := by
  obtain ⟨hfresh, hnodup, htbl, hperm⟩ := hInv
  cases tx with
  | mint sender recipient amount act vid =>
    simp only [runTx] at h
    split at h
    · split at h
      · cases h
      · injection h with h
        subst h
        exact ⟨fun i hi => Nat.lt_succ_of_lt (hfresh i hi), hnodup, htbl, hperm⟩
    · cases h
  | listItem sender nftId price =>
    simp only [runTx] at h
    split at h
    · cases h
    · rename_i nft heqn
      split at h
      · cases h
      · rename_i reg listing evs heq
        obtain ⟨hcon, hout⟩ := list_item_ok heq
        simp only [Prod.mk.injEq] at hout
        obtain ⟨hreg, hlst, hevs⟩ := hout
        subst hreg hlst hevs
        injection h with h
        subst h
        refine ⟨?_, ?_, ?_, ?_⟩
        · intro i hi
          simp only [execCtx, List.map_cons, List.mem_cons] at hi
          rcases hi with hi | hi
          · subst hi
            exact Nat.lt_succ_self _
          · exact Nat.lt_succ_of_lt (hfresh i hi)
        · simp only [execCtx, List.map_cons]
          refine List.nodup_cons.mpr ⟨fun hmem => ?_, hnodup⟩
          exact Nat.lt_irrefl _ (hfresh _ hmem)
        · simp only [execCtx, List.map_cons]
          rw [htbl]
        · simp only [execCtx, List.map_cons]
          exact (hperm.append_right [s.nextId]).trans
            (List.perm_append_singleton _ _)
  | buyItem sender lid coinId =>
    simp only [runTx] at h
    split at h
    · cases h
    · rename_i listing heql
      split at h
      · cases h
      · rename_i payment heqc
        split at h
        · cases h
        · rename_i reg transferNft transferCoin evs heq
          obtain ⟨hpay, hcon, hout⟩ := buy_item_ok heq
          simp only [Prod.mk.injEq] at hout
          obtain ⟨hreg, hnft, hcoin, hevs⟩ := hout
          subst hreg hnft hcoin hevs
          injection h with h
          subst h
          obtain ⟨hmeml, hidl⟩ := findListing_eq_some heql
          subst hidl
          have hmem_id : listing.id ∈ s.listings.map Listing.id :=
            List.mem_map_of_mem _ hmeml
          have hin : listing.id ∈ s.listingRegistry.active_listing_ids :=
            hperm.mem_iff.mpr hmem_id
          obtain ⟨hfound, hsr⟩ := vectorIndexOf_found hin
          refine ⟨?_, ?_, ?_, ?_⟩
          · intro i hi
            rw [map_id_removeListing] at hi
            exact hfresh i (List.mem_of_mem_erase hi)
          · rw [map_id_removeListing]
            exact hnodup.erase _
          · rw [htbl, tableRemove_map_listing]
          · simp only [hfound, if_true]
            have hrw : (s.listings.map Listing.id).erase listing.id =
                (removeListing s.listings listing.id).map Listing.id :=
              (map_id_removeListing _ _).symm
            exact hsr.trans (hrw ▸ hperm.erase listing.id)
  | cancelListing sender lid =>
    simp only [runTx] at h
    split at h
    · cases h
    · rename_i listing heql
      split at h
      · cases h
      · rename_i reg transferNft evs heq
        obtain ⟨hsel, hcon, hout⟩ := cancel_listing_ok heq
        simp only [Prod.mk.injEq] at hout
        obtain ⟨hreg, hnft, hevs⟩ := hout
        subst hreg hnft hevs
        injection h with h
        subst h
        obtain ⟨hmeml, hidl⟩ := findListing_eq_some heql
        subst hidl
        have hmem_id : listing.id ∈ s.listings.map Listing.id :=
          List.mem_map_of_mem _ hmeml
        have hin : listing.id ∈ s.listingRegistry.active_listing_ids :=
          hperm.mem_iff.mpr hmem_id
        obtain ⟨hfound, hsr⟩ := vectorIndexOf_found hin
        refine ⟨?_, ?_, ?_, ?_⟩
        · intro i hi
          rw [map_id_removeListing] at hi
          exact hfresh i (List.mem_of_mem_erase hi)
        · rw [map_id_removeListing]
          exact hnodup.erase _
        · rw [htbl, tableRemove_map_listing]
        · simp only [hfound, if_true]
          have hrw : (s.listings.map Listing.id).erase listing.id =
              (removeListing s.listings listing.id).map Listing.id :=
            (map_id_removeListing _ _).symm
          exact hsr.trans (hrw ▸ hperm.erase listing.id)
  | retire sender nftId =>
    simp only [runTx] at h
    split at h
    · cases h
    · injection h with h
      subst h
      exact ⟨fun i hi => Nat.lt_succ_of_lt (hfresh i hi), hnodup, htbl, hperm⟩
  | freezeCert sender certId =>
    simp only [runTx] at h
    split at h
    · cases h
    · injection h with h
      subst h
      exact ⟨hfresh, hnodup, htbl, hperm⟩
  | faucet owner value =>
    simp only [runTx] at h
    injection h with h
    subst h
    exact ⟨fun i hi => Nat.lt_succ_of_lt (hfresh i hi), hnodup, htbl, hperm⟩
  | publicTransferCert sender recipient certId =>
    simp only [runTx] at h
    split at h
    · split at h
      · cases h
      · injection h with h
        subst h
        exact ⟨hfresh, hnodup, htbl, hperm⟩
    · cases h

theorem regInv_execTx {s : SystemState} (hInv : RegInv s) (tx : Tx) :
    RegInv (execTx s tx) := by
  unfold execTx
  cases htx : runTx s tx with
  | error e => exact hInv
  | ok s' => exact regInv_runTx_ok hInv htx

theorem regInv_execTxList :
    ∀ (txs : List Tx) (s : SystemState), RegInv s → RegInv (execTxList s txs) := by
  intro txs
  induction txs with
  | nil => exact fun s hInv => hInv
  | cons tx rest ih => exact fun s hInv => ih (execTx s tx) (regInv_execTx hInv tx)

theorem regInv_initState : RegInv initState := by
  refine ⟨?_, ?_, ?_, ?_⟩ <;> simp [initState, RegInv]

theorem reachable_regInv {s : SystemState} (h : Reachable s) : RegInv s := by
  obtain ⟨txs, hrun⟩ := h
  exact hrun ▸ regInv_execTxList txs initState regInv_initState

/-! ### Explicit evaluation lemmas for `runTx` under the various guards -/

theorem runTx_mint_eq (s : SystemState) (sender recipient : Addr)
    (amount act : Nat) (vid : Bytes) (hcap : sender = s.adminCapOwner)
    (hamt : 0 < amount)
    (hcon : tableContains s.verificationRegistry.processed_ids vid = false) :
    runTx s (.mint sender recipient amount act vid) =
    .ok { s with
          verificationRegistry :=
            { processed_ids := (vid, true) :: s.verificationRegistry.processed_ids }
          nfts := (recipient,
            { id := s.nextId, amount_kg_co2e := amount, activity_type := act,
              verification_id := vid, issuance_timestamp_ms := s.timestamp })
            :: s.nfts
          events := s.events ++ [.mintNFT s.nextId recipient amount vid]
          nextId := s.nextId + 1 } := by
  simp only [runTx, hcap, if_pos rfl, mint_nft, tableAdd, execCtx, hcon,
    Bool.false_eq_true, if_false, hamt, if_pos]

theorem runTx_mint_zero_eq (s : SystemState) (sender recipient : Addr)
    (act : Nat) (vid : Bytes) (hcap : sender = s.adminCapOwner) :
    runTx s (.mint sender recipient 0 act vid) =
    .error (.abort EInvalidAmount) := by
  simp only [runTx, hcap, if_pos rfl, mint_nft, Nat.lt_irrefl, if_false, if_true]

theorem runTx_mint_dup_eq (s : SystemState) (sender recipient : Addr)
    (amount act : Nat) (vid : Bytes) (hcap : sender = s.adminCapOwner)
    (hamt : 0 < amount)
    (hcon : tableContains s.verificationRegistry.processed_ids vid = true) :
    runTx s (.mint sender recipient amount act vid) =
    .error (.abort EVerificationIdAlreadyProcessed) := by
  simp only [runTx, hcap, if_pos rfl, mint_nft, hamt, if_pos, hcon, if_true]

theorem runTx_list_eq (s : SystemState) (sender : Addr) (nftId : ObjId)
    (price : Nat) (nft : CarbonCreditNFT)
    (hfind : findOwnedNft s.nfts sender nftId = some nft)
    (hcon : tableContains s.listingRegistry.active_listings s.nextId = false) :
    runTx s (.listItem sender nftId price) =
    .ok { s with
          listingRegistry :=
            { active_listings :=
                (s.nextId, sender) :: s.listingRegistry.active_listings
              active_listing_ids :=
                s.listingRegistry.active_listing_ids ++ [s.nextId] }
          nfts := removeOwnedNft s.nfts sender nftId
          listings :=
            { id := s.nextId, nft_id := nft.id, nft := nft,
              price_micro_iota := price, seller := sender } :: s.listings
          events := s.events ++ [.listingCreated s.nextId nft.id sender price]
          nextId := s.nextId + 1 } := by
  simp only [runTx, hfind, list_item, tableAdd, execCtx, hcon,
    Bool.false_eq_true, if_false]

theorem runTx_buy_eq (s : SystemState) (sender : Addr) (lid coinId : ObjId)
    (listing : Listing) (payment : Coin)
    (hfind : findListing s.listings lid = some listing)
    (hcoin : findOwnedCoin s.coins sender coinId = some payment)
    (hpay : payment.value = listing.price_micro_iota)
    (hcon : tableContains s.listingRegistry.active_listings listing.id = true) :
    runTx s (.buyItem sender lid coinId) =
    .ok { s with
          listingRegistry :=
            { active_listings :=
                tableRemove s.listingRegistry.active_listings listing.id
              active_listing_ids :=
                if (vectorIndexOf s.listingRegistry.active_listing_ids
                      listing.id).1 then
                  vectorSwapRemove s.listingRegistry.active_listing_ids
                    (vectorIndexOf s.listingRegistry.active_listing_ids
                      listing.id).2
                else s.listingRegistry.active_listing_ids }
          listings := removeListing s.listings lid
          nfts := (sender, listing.nft) :: s.nfts
          coins := (listing.seller, payment) ::
            removeOwnedCoin s.coins sender coinId
          events := s.events ++ [.itemSold listing.id listing.nft_id
            listing.seller sender listing.price_micro_iota] } := by
  simp only [runTx, hfind, hcoin, buy_item, execCtx, hpay, if_pos, hcon, if_true]

theorem runTx_buy_mismatch_eq (s : SystemState) (sender : Addr)
    (lid coinId : ObjId) (listing : Listing) (payment : Coin)
    (hfind : findListing s.listings lid = some listing)
    (hcoin : findOwnedCoin s.coins sender coinId = some payment)
    (hpay : payment.value ≠ listing.price_micro_iota) :
    runTx s (.buyItem sender lid coinId) =
    .error (.abort EIncorrectPaymentAmount) := by
  simp only [runTx, hfind, hcoin, buy_item, execCtx, hpay, if_false]

theorem runTx_cancel_eq (s : SystemState) (sender : Addr) (lid : ObjId)
    (listing : Listing)
    (hfind : findListing s.listings lid = some listing)
    (hsel : sender = listing.seller)
    (hcon : tableContains s.listingRegistry.active_listings listing.id = true) :
    runTx s (.cancelListing sender lid) =
    .ok { s with
          listingRegistry :=
            { active_listings :=
                tableRemove s.listingRegistry.active_listings listing.id
              active_listing_ids :=
                if (vectorIndexOf s.listingRegistry.active_listing_ids
                      listing.id).1 then
                  vectorSwapRemove s.listingRegistry.active_listing_ids
                    (vectorIndexOf s.listingRegistry.active_listing_ids
                      listing.id).2
                else s.listingRegistry.active_listing_ids }
          listings := removeListing s.listings lid
          nfts := (listing.seller, listing.nft) :: s.nfts
          events := s.events ++
            [.listingCancelled listing.id listing.nft_id listing.seller] } := by
  simp only [runTx, hfind, cancel_listing, execCtx, hsel, if_pos, hcon, if_true]

theorem runTx_cancel_notseller_eq (s : SystemState) (sender : Addr)
    (lid : ObjId) (listing : Listing)
    (hfind : findListing s.listings lid = some listing)
    (hsel : sender ≠ listing.seller) :
    runTx s (.cancelListing sender lid) = .error (.abort ENotSeller) := by
  simp only [runTx, hfind, cancel_listing, execCtx, hsel, if_false]

theorem runTx_retire_eq (s : SystemState) (sender : Addr) (nftId : ObjId)
    (nft : CarbonCreditNFT)
    (hfind : findOwnedNft s.nfts sender nftId = some nft) :
    runTx s (.retire sender nftId) =
    .ok { s with
          nfts := removeOwnedNft s.nfts sender nftId
          certs := (sender,
            { id := s.nextId, original_nft_id := nft.id,
              retirer_address := sender,
              retired_amount_kg_co2e := nft.amount_kg_co2e,
              original_verification_id := nft.verification_id,
              retirement_timestamp_ms := s.timestamp }) :: s.certs
          events := s.events ++
            [.retireNFT sender nft.id nft.amount_kg_co2e nft.verification_id,
             .certificateMinted s.nextId sender nft.amount_kg_co2e
               nft.verification_id s.timestamp]
          nextId := s.nextId + 1 } := by
  simp only [runTx, hfind, retire_nft, execCtx]

theorem runTx_freeze_eq (s : SystemState) (sender : Addr) (certId : ObjId)
    (cert : RetirementCertificate)
    (hfind : findOwnedCert s.certs sender certId = some cert) :
    runTx s (.freezeCert sender certId) =
    .ok { s with
          certs := removeOwnedCert s.certs sender certId
          frozenCerts := cert :: s.frozenCerts } := by
  simp only [runTx, hfind]

/-! ### Support lemmas for the claim theorems -/

theorem execTx_eq_of_ok {s : SystemState} {tx : Tx} {s' : SystemState}
    (h : runTx s tx = .ok s') : execTx s tx = s' := by
  unfold execTx
  rw [h]

theorem execTx_eq_of_error {s : SystemState} {tx : Tx} {e : TxError}
    (h : runTx s tx = .error e) : execTx s tx = s := by
  unfold execTx
  rw [h]

theorem countP_eq_count_map {α : Type} (f : α → ObjId) (k : ObjId) (l : List α) :
    l.countP (fun x => decide (f x = k)) = (l.map f).count k := by
  induction l with
  | nil => rfl
  | cons a t ih =>
    by_cases hfa : f a = k
    · rw [List.countP_cons_of_pos _ _ (by simpa using hfa), List.map_cons, hfa,
        List.count_cons_self, ih]
    · rw [List.countP_cons_of_neg _ _ (by simpa using hfa), List.map_cons,
        List.count_cons_of_ne (fun e => hfa e.symm), ih]

theorem findListing_remove_self {ls : List Listing} {lid : ObjId}
    (hnodup : (ls.map Listing.id).Nodup) :
    findListing (removeListing ls lid) lid = none := by
  unfold findListing removeListing
  apply find?_eraseP_none
  rw [countP_eq_count_map Listing.id lid ls]
  exact List.nodup_iff_count_le_one.mp hnodup lid

theorem findOwnedCert_remove_self {cs : List (Addr × RetirementCertificate)}
    {sender : Addr} {certId : ObjId}
    (hcnt : cs.countP (fun p => decide (p.2.id = certId)) ≤ 1) :
    findOwnedCert (removeOwnedCert cs sender certId) sender certId = none := by
  have hmono : cs.countP
      (fun p => decide (p.1 = sender) && decide (p.2.id = certId)) ≤
      cs.countP (fun p => decide (p.2.id = certId)) := by
    apply List.countP_mono_left
    intro a _ ha
    simp only [Bool.and_eq_true] at ha
    exact ha.2
  have hnone := find?_eraseP_none
    (fun p => decide (p.1 = sender) && decide (p.2.id = certId)) cs
    (Nat.le_trans hmono hcnt)
  unfold findOwnedCert removeOwnedCert
  rw [hnone]
  rfl

theorem vectorIndexOf_append_self {v : List ObjId} {x : ObjId} (hx : x ∉ v) :
    vectorIndexOf (v ++ [x]) x = (true, v.length) := by
  induction v with
  | nil => simp [vectorIndexOf]
  | cons y t ih =>
    have hyx : ¬ y = x := fun e => hx (e ▸ List.mem_cons_self y t)
    have hxt : x ∉ t := fun hm => hx (List.mem_cons_of_mem y hm)
    show vectorIndexOf (y :: (t ++ [x])) x = (true, t.length + 1)
    unfold vectorIndexOf
    rw [if_neg hyx, ih hxt]

theorem set_append_length (v : List ObjId) (x w : ObjId) :
    (v ++ [x]).set v.length w = v ++ [w] := by
  induction v with
  | nil => rfl
  | cons y t ih =>
    show y :: (t ++ [x]).set t.length w = y :: (t ++ [w])
    rw [ih]

theorem vectorSwapRemove_append_self (v : List ObjId) (x : ObjId) :
    vectorSwapRemove (v ++ [x]) v.length = v := by
  unfold vectorSwapRemove
  rw [List.getLast?_concat]
  show ((v ++ [x]).set v.length x).dropLast = v
  rw [set_append_length, List.dropLast_concat]

/-- Shared specification of a successful `buy_item` call: under the
registry invariant, with an active listing and a coin of exactly the
listed price, the purchase succeeds, the escrowed NFT goes to the buyer,
the payment coin goes to the seller, and the listing is gone from the
shared objects, the registry table and the enumeration vector. -/
theorem buy_success_spec (s : SystemState) (sender : Addr) (lid coinId : ObjId)
    (listing : Listing) (payment : Coin) (hInv : RegInv s)
    (hfind : findListing s.listings lid = some listing)
    (hcoin : findOwnedCoin s.coins sender coinId = some payment)
    (hpay : payment.value = listing.price_micro_iota) :
    runTx s (.buyItem sender lid coinId) =
      .ok (execTx s (.buyItem sender lid coinId)) ∧
    (sender, listing.nft) ∈ (execTx s (.buyItem sender lid coinId)).nfts ∧
    (listing.seller, payment) ∈ (execTx s (.buyItem sender lid coinId)).coins ∧
    findListing (execTx s (.buyItem sender lid coinId)).listings lid = none ∧
    listing.id ∉ (execTx s (.buyItem sender lid coinId)).listingRegistry.active_listings.map
      Prod.fst ∧
    listing.id ∉ (execTx s (.buyItem sender lid coinId)).listingRegistry.active_listing_ids := by
  obtain ⟨hfresh, hnodup, htbl, hperm⟩ := hInv
  obtain ⟨hmeml, hidl⟩ := findListing_eq_some hfind
  have hmapfst : s.listingRegistry.active_listings.map Prod.fst =
      s.listings.map Listing.id := by
    rw [htbl, List.map_map]
    rfl
  have hmem_id : listing.id ∈ s.listings.map Listing.id :=
    List.mem_map_of_mem _ hmeml
  have hcon : tableContains s.listingRegistry.active_listings listing.id = true :=
    (tableContains_iff _ _).mpr (hmapfst ▸ hmem_id)
  have hok := runTx_buy_eq s sender lid coinId listing payment hfind hcoin hpay hcon
  have hs' := execTx_eq_of_ok hok
  rw [hs']
  have hin : listing.id ∈ s.listingRegistry.active_listing_ids :=
    hperm.mem_iff.mpr hmem_id
  obtain ⟨hfound, hsr⟩ := vectorIndexOf_found hin
  refine ⟨hok, List.mem_cons_self _ _, List.mem_cons_self _ _, ?_, ?_, ?_⟩
  · exact hidl ▸ findListing_remove_self hnodup
  · rw [htbl, tableRemove_map_listing, List.map_map]
    show listing.id ∉ (removeListing s.listings listing.id).map Listing.id
    rw [map_id_removeListing]
    exact hnodup.not_mem_erase
  · simp only [hfound, if_true]
    intro hmem
    have h1 : listing.id ∈ s.listingRegistry.active_listing_ids.erase listing.id :=
      hsr.mem_iff.mp hmem
    have h2 : listing.id ∈ (s.listings.map Listing.id).erase listing.id :=
      (hperm.erase listing.id).mem_iff.mp h1
    exact hnodup.not_mem_erase h2

theorem runTx_mint_nocap_eq (s : SystemState) (sender recipient : Addr)
    (amount act : Nat) (vid : Bytes) (hcap : sender ≠ s.adminCapOwner) :
    runTx s (.mint sender recipient amount act vid) =
    .error .objectUnavailable := by
  simp only [runTx, if_neg hcap]

/-! ### Claim theorems -/

/-- C7: For every mint amount `a` (a `u64`, so `a ≤ 0` means `a = 0`):
a zero-amount call to `mint_nft` aborts with `EInvalidAmount` and the
failed transaction leaves all state unchanged; a positive-amount call
presenting the `AdminCap` credential with a fresh verification id succeeds
and creates exactly one `CarbonCreditNFT` owned by the recipient whose
`amount_kg_co2e` equals `a`. -/
theorem c7_mint_amount (s : SystemState) (sender recipient : Addr)
    (amount act : Nat) (vid : Bytes) :
    (amount = 0 →
      (sender = s.adminCapOwner →
        runTx s (.mint sender recipient amount act vid) =
          .error (.abort EInvalidAmount)) ∧
      execTx s (.mint sender recipient amount act vid) = s) ∧
    (0 < amount → sender = s.adminCapOwner →
      tableContains s.verificationRegistry.processed_ids vid = false →
      runTx s (.mint sender recipient amount act vid) =
      .ok { s with
            verificationRegistry :=
              { processed_ids :=
                  (vid, true) :: s.verificationRegistry.processed_ids }
            nfts := (recipient,
              { id := s.nextId, amount_kg_co2e := amount, activity_type := act,
                verification_id := vid, issuance_timestamp_ms := s.timestamp })
              :: s.nfts
            events := s.events ++ [.mintNFT s.nextId recipient amount vid]
            nextId := s.nextId + 1 }) := by
  constructor
  · intro h0
    subst h0
    by_cases hcap : sender = s.adminCapOwner
    · have herr := runTx_mint_zero_eq s sender recipient act vid hcap
      exact ⟨fun _ => herr, execTx_eq_of_error herr⟩
    · have herr := runTx_mint_nocap_eq s sender recipient 0 act vid hcap
      exact ⟨fun hc => absurd hc hcap, execTx_eq_of_error herr⟩
  · intro hamt hcap hcon
    exact runTx_mint_eq s sender recipient amount act vid hcap hamt hcon

theorem c7_mint_amount_witness :
    runTx initState (.mint 0 1 5 1 [1]) =
      .ok { initState with
            verificationRegistry :=
              { processed_ids :=
                  ([1], true) :: initState.verificationRegistry.processed_ids }
            nfts := (1,
              { id := initState.nextId, amount_kg_co2e := 5, activity_type := 1,
                verification_id := [1],
                issuance_timestamp_ms := initState.timestamp })
              :: initState.nfts
            events := initState.events ++ [.mintNFT initState.nextId 1 5 [1]]
            nextId := initState.nextId + 1 } ∧
    runTx initState (.mint 0 1 0 1 [1]) = .error (.abort EInvalidAmount) ∧
    execTx initState (.mint 0 1 0 1 [1]) = initState :=
  ⟨(c7_mint_amount initState 0 1 5 1 [1]).2 (by decide) rfl (by decide),
   ((c7_mint_amount initState 0 1 0 1 [1]).1 rfl).1 rfl,
   ((c7_mint_amount initState 0 1 0 1 [1]).1 rfl).2⟩

/-- C1 (counterexample to the claim as stated): after `[7]` has been
registered by a successful mint, a later `mint_nft` call reusing `[7]`
with a zero amount fails with `EInvalidAmount`, not with
`EVerificationIdAlreadyProcessed` ("DuplicateVerification"): the amount
check precedes the duplicate check in `mint_nft`. -/
theorem c1_mint_duplicate_counterexample :
    tableContains
      ((execTx initState (.mint 0 1 5 1 [7])).verificationRegistry.processed_ids)
      [7] = true ∧
    runTx (execTx initState (.mint 0 1 5 1 [7])) (.mint 0 1 0 1 [7]) =
      .error (.abort EInvalidAmount) ∧
    TxError.abort EInvalidAmount ≠ TxError.abort EVerificationIdAlreadyProcessed :=
  ⟨by decide, by decide, by decide⟩

/-- C1 (amended): if the verification id is already present in the
registry, every later mint call with it fails — so no second Certificate
is ever created and the whole state is unchanged — and a call that
presents the credential with a positive amount fails specifically with
`EVerificationIdAlreadyProcessed` ("DuplicateVerification").  (A
zero-amount call fails with `EInvalidAmount` instead, since the amount
check comes first.) -/
theorem c1_mint_duplicate (s : SystemState) (sender recipient : Addr)
    (amount act : Nat) (vid : Bytes)
    (hdup : tableContains s.verificationRegistry.processed_ids vid = true) :
    (∃ e, runTx s (.mint sender recipient amount act vid) = .error e) ∧
    execTx s (.mint sender recipient amount act vid) = s ∧
    (sender = s.adminCapOwner → 0 < amount →
      runTx s (.mint sender recipient amount act vid) =
        .error (.abort EVerificationIdAlreadyProcessed)) := by
  by_cases hcap : sender = s.adminCapOwner
  · rcases Nat.eq_zero_or_pos amount with h0 | hpos
    · subst h0
      have herr := runTx_mint_zero_eq s sender recipient act vid hcap
      exact ⟨⟨_, herr⟩, execTx_eq_of_error herr,
        fun _ hlt => absurd hlt (Nat.lt_irrefl 0)⟩
    · have herr := runTx_mint_dup_eq s sender recipient amount act vid hcap
        hpos hdup
      exact ⟨⟨_, herr⟩, execTx_eq_of_error herr, fun _ _ => herr⟩
  · have herr := runTx_mint_nocap_eq s sender recipient amount act vid hcap
    exact ⟨⟨_, herr⟩, execTx_eq_of_error herr, fun hc => absurd hc hcap⟩

theorem c1_mint_duplicate_witness :
    tableContains
      ((execTx initState (.mint 0 1 5 1 [7])).verificationRegistry.processed_ids)
      [7] = true ∧
    execTx (execTx initState (.mint 0 1 5 1 [7])) (.mint 0 1 6 1 [7]) =
      execTx initState (.mint 0 1 5 1 [7]) ∧
    runTx (execTx initState (.mint 0 1 5 1 [7])) (.mint 0 1 6 1 [7]) =
      .error (.abort EVerificationIdAlreadyProcessed) :=
  ⟨by decide,
   (c1_mint_duplicate (execTx initState (.mint 0 1 5 1 [7])) 0 1 6 1 [7]
     (by decide)).2.1,
   (c1_mint_duplicate (execTx initState (.mint 0 1 5 1 [7])) 0 1 6 1 [7]
     (by decide)).2.2 (by decide) (by decide)⟩

/-- C6: only the recorded seller can cancel a listing: a `cancel_listing`
call by any other sender aborts with `ENotSeller` and the failed
transaction leaves the listing, its escrowed NFT and the registry
unchanged; conversely every successful cancel was called by the recorded
seller. -/
theorem c6_cancel_only_seller (s : SystemState) (sender : Addr) (lid : ObjId) :
    (∀ listing : Listing, findListing s.listings lid = some listing →
      sender ≠ listing.seller →
      runTx s (.cancelListing sender lid) = .error (.abort ENotSeller) ∧
      execTx s (.cancelListing sender lid) = s) ∧
    (∀ s' : SystemState, runTx s (.cancelListing sender lid) = .ok s' →
      ∃ listing : Listing, findListing s.listings lid = some listing ∧
        sender = listing.seller) := by
  constructor
  · intro listing hfind hne
    have herr := runTx_cancel_notseller_eq s sender lid listing hfind hne
    exact ⟨herr, execTx_eq_of_error herr⟩
  · intro s' hok
    simp only [runTx] at hok
    split at hok
    · cases hok
    · rename_i listing heq
      split at hok
      · cases hok
      · rename_i reg transferNft evs heq2
        obtain ⟨hsel, _, _⟩ := cancel_listing_ok heq2
        exact ⟨listing, heq, hsel⟩

theorem c6_cancel_only_seller_witness :
    findListing
      (execTxList initState [.mint 0 1 5 1 [1], .listItem 1 0 10]).listings 1 =
      some { id := 1, nft_id := 0,
             nft := { id := 0, amount_kg_co2e := 5, activity_type := 1,
                      verification_id := [1], issuance_timestamp_ms := 0 },
             price_micro_iota := 10, seller := 1 } ∧
    runTx (execTxList initState [.mint 0 1 5 1 [1], .listItem 1 0 10])
      (.cancelListing 2 1) = .error (.abort ENotSeller) ∧
    execTx (execTxList initState [.mint 0 1 5 1 [1], .listItem 1 0 10])
      (.cancelListing 2 1) =
      execTxList initState [.mint 0 1 5 1 [1], .listItem 1 0 10] :=
  ⟨by decide,
   ((c6_cancel_only_seller
      (execTxList initState [.mint 0 1 5 1 [1], .listItem 1 0 10]) 2 1).1
     { id := 1, nft_id := 0,
        nft := { id := 0, amount_kg_co2e := 5, activity_type := 1,
                 verification_id := [1], issuance_timestamp_ms := 0 },
        price_micro_iota := 10, seller := 1 } (by decide) (by decide)).1,
   ((c6_cancel_only_seller
      (execTxList initState [.mint 0 1 5 1 [1], .listItem 1 0 10]) 2 1).1
     { id := 1, nft_id := 0,
        nft := { id := 0, amount_kg_co2e := 5, activity_type := 1,
                 verification_id := [1], issuance_timestamp_ms := 0 },
        price_micro_iota := 10, seller := 1 } (by decide) (by decide)).2⟩

/-- C2: buying with payment exactly equal to the recorded price transfers
the escrowed NFT to the buyer and the whole payment coin (of exactly the
price) to the seller, removes the listing id from both registry
structures and destroys the Listing; buying with payment ≠ price aborts
with `EIncorrectPaymentAmount` ("PriceMismatch") and the failed
transaction leaves the listing active, the NFT escrowed and all state
unchanged. -/
theorem c2_buy_exact_payment (s : SystemState) (sender : Addr)
    (lid coinId : ObjId) (listing : Listing) (payment : Coin)
    (hInv : RegInv s)
    (hfind : findListing s.listings lid = some listing)
    (hcoin : findOwnedCoin s.coins sender coinId = some payment) :
    (payment.value = listing.price_micro_iota →
      runTx s (.buyItem sender lid coinId) =
        .ok (execTx s (.buyItem sender lid coinId)) ∧
      (sender, listing.nft) ∈ (execTx s (.buyItem sender lid coinId)).nfts ∧
      (listing.seller, payment) ∈
        (execTx s (.buyItem sender lid coinId)).coins ∧
      payment.value = listing.price_micro_iota ∧
      findListing (execTx s (.buyItem sender lid coinId)).listings lid = none ∧
      listing.id ∉
        (execTx s (.buyItem sender lid coinId)).listingRegistry.active_listings.map
          Prod.fst ∧
      listing.id ∉
        (execTx s (.buyItem sender lid coinId)).listingRegistry.active_listing_ids) ∧
    (payment.value ≠ listing.price_micro_iota →
      runTx s (.buyItem sender lid coinId) =
        .error (.abort EIncorrectPaymentAmount) ∧
      execTx s (.buyItem sender lid coinId) = s ∧
      findListing (execTx s (.buyItem sender lid coinId)).listings lid =
        some listing) := by
  constructor
  · intro hpay
    obtain ⟨h1, h2, h3, h4, h5, h6⟩ :=
      buy_success_spec s sender lid coinId listing payment hInv hfind hcoin hpay
    exact ⟨h1, h2, h3, hpay, h4, h5, h6⟩
  · intro hne
    have herr := runTx_buy_mismatch_eq s sender lid coinId listing payment
      hfind hcoin hne
    have hs := execTx_eq_of_error herr
    exact ⟨herr, hs, by rw [hs]; exact hfind⟩

theorem c2_buy_exact_payment_witness :
    runTx (execTxList initState
        [.mint 0 1 5 1 [1], .faucet 2 10, .listItem 1 0 10])
      (.buyItem 2 2 1) =
      .ok (execTx (execTxList initState
        [.mint 0 1 5 1 [1], .faucet 2 10, .listItem 1 0 10]) (.buyItem 2 2 1)) ∧
    (2, { id := 0, amount_kg_co2e := 5, activity_type := 1,
          verification_id := [1], issuance_timestamp_ms := 0 :
            CarbonCreditNFT }) ∈
      (execTx (execTxList initState
        [.mint 0 1 5 1 [1], .faucet 2 10, .listItem 1 0 10])
        (.buyItem 2 2 1)).nfts ∧
    (1, { id := 1, value := 10 : Coin }) ∈
      (execTx (execTxList initState
        [.mint 0 1 5 1 [1], .faucet 2 10, .listItem 1 0 10])
        (.buyItem 2 2 1)).coins ∧
    findListing (execTx (execTxList initState
        [.mint 0 1 5 1 [1], .faucet 2 10, .listItem 1 0 10])
        (.buyItem 2 2 1)).listings 2 = none ∧
    2 ∉ (execTx (execTxList initState
        [.mint 0 1 5 1 [1], .faucet 2 10, .listItem 1 0 10])
        (.buyItem 2 2 1)).listingRegistry.active_listing_ids := by
  have h := c2_buy_exact_payment
    (execTxList initState [.mint 0 1 5 1 [1], .faucet 2 10, .listItem 1 0 10])
    2 2 1
    { id := 2, nft_id := 0,
      nft := { id := 0, amount_kg_co2e := 5, activity_type := 1,
               verification_id := [1], issuance_timestamp_ms := 0 },
      price_micro_iota := 10, seller := 1 }
    { id := 1, value := 10 }
    (by decide) (by decide) (by decide)
  obtain ⟨h1, h2, h3, _, h5, _, h7⟩ := h.1 (by decide)
  exact ⟨h1, h2, h3, h5, h7⟩

/-- C10: `buy_item` has no buyer-is-not-seller restriction: the recorded
seller can buy their own active listing with exact payment; the call
succeeds, the escrowed NFT and the payment coin both end up owned by the
seller, and the listing is removed and destroyed. -/
theorem c10_self_buy_allowed (s : SystemState) (lid coinId : ObjId)
    (listing : Listing) (payment : Coin) (hInv : RegInv s)
    (hfind : findListing s.listings lid = some listing)
    (hcoin : findOwnedCoin s.coins listing.seller coinId = some payment)
    (hpay : payment.value = listing.price_micro_iota) :
    runTx s (.buyItem listing.seller lid coinId) =
      .ok (execTx s (.buyItem listing.seller lid coinId)) ∧
    (listing.seller, listing.nft) ∈
      (execTx s (.buyItem listing.seller lid coinId)).nfts ∧
    (listing.seller, payment) ∈
      (execTx s (.buyItem listing.seller lid coinId)).coins ∧
    findListing (execTx s (.buyItem listing.seller lid coinId)).listings lid =
      none ∧
    listing.id ∉
      (execTx s (.buyItem listing.seller lid coinId)).listingRegistry.active_listing_ids := by
  obtain ⟨h1, h2, h3, h4, _, h6⟩ :=
    buy_success_spec s listing.seller lid coinId listing payment hInv hfind
      hcoin hpay
  exact ⟨h1, h2, h3, h4, h6⟩

theorem c10_self_buy_allowed_witness :
    runTx (execTxList initState
        [.mint 0 1 5 1 [1], .faucet 1 10, .listItem 1 0 10])
      (.buyItem 1 2 1) =
      .ok (execTx (execTxList initState
        [.mint 0 1 5 1 [1], .faucet 1 10, .listItem 1 0 10]) (.buyItem 1 2 1)) ∧
    (1, { id := 0, amount_kg_co2e := 5, activity_type := 1,
          verification_id := [1], issuance_timestamp_ms := 0 :
            CarbonCreditNFT }) ∈
      (execTx (execTxList initState
        [.mint 0 1 5 1 [1], .faucet 1 10, .listItem 1 0 10])
        (.buyItem 1 2 1)).nfts ∧
    (1, { id := 1, value := 10 : Coin }) ∈
      (execTx (execTxList initState
        [.mint 0 1 5 1 [1], .faucet 1 10, .listItem 1 0 10])
        (.buyItem 1 2 1)).coins ∧
    findListing (execTx (execTxList initState
        [.mint 0 1 5 1 [1], .faucet 1 10, .listItem 1 0 10])
        (.buyItem 1 2 1)).listings 2 = none ∧
    2 ∉ (execTx (execTxList initState
        [.mint 0 1 5 1 [1], .faucet 1 10, .listItem 1 0 10])
        (.buyItem 1 2 1)).listingRegistry.active_listing_ids :=
  c10_self_buy_allowed
    (execTxList initState [.mint 0 1 5 1 [1], .faucet 1 10, .listItem 1 0 10])
    2 1
    { id := 2, nft_id := 0,
      nft := { id := 0, amount_kg_co2e := 5, activity_type := 1,
               verification_id := [1], issuance_timestamp_ms := 0 },
      price_micro_iota := 10, seller := 1 }
    { id := 1, value := 10 }
    (by decide) (by decide) (by decide) (by decide)

/-- C5: listing an NFT and having the seller cancel returns the very same
`CarbonCreditNFT` value (all fields identical, including its id) to the
seller, and afterwards the listing's id no longer appears in the
`get_active_listing_ids` query, whose result is back to what it was
before listing. -/
theorem c5_list_cancel_roundtrip (s : SystemState) (sender : Addr)
    (nftId : ObjId) (price : Nat) (nft : CarbonCreditNFT)
    (hInv : RegInv s)
    (hfind : findOwnedNft s.nfts sender nftId = some nft) :
    runTx s (.listItem sender nftId price) =
      .ok (execTx s (.listItem sender nftId price)) ∧
    runTx (execTx s (.listItem sender nftId price))
        (.cancelListing sender s.nextId) =
      .ok (execTx (execTx s (.listItem sender nftId price))
        (.cancelListing sender s.nextId)) ∧
    (sender, nft) ∈ (execTx (execTx s (.listItem sender nftId price))
        (.cancelListing sender s.nextId)).nfts ∧
    get_active_listing_ids (execTx (execTx s (.listItem sender nftId price))
        (.cancelListing sender s.nextId)).listingRegistry =
      get_active_listing_ids s.listingRegistry ∧
    s.nextId ∉ get_active_listing_ids
      (execTx (execTx s (.listItem sender nftId price))
        (.cancelListing sender s.nextId)).listingRegistry := by
  obtain ⟨hfresh, hnodup, htbl, hperm⟩ := hInv
  have hmapfst : s.listingRegistry.active_listings.map Prod.fst =
      s.listings.map Listing.id := by
    rw [htbl, List.map_map]
    rfl
  have hnidmem : s.nextId ∉ s.listingRegistry.active_listings.map Prod.fst := by
    rw [hmapfst]
    intro hm
    exact Nat.lt_irrefl _ (hfresh _ hm)
  have hnidtbl : tableContains s.listingRegistry.active_listings s.nextId =
      false := by
    cases hc : tableContains s.listingRegistry.active_listings s.nextId with
    | false => rfl
    | true => exact absurd ((tableContains_iff _ _).mp hc) hnidmem
  have hok1 := runTx_list_eq s sender nftId price nft hfind hnidtbl
  have hs1 := execTx_eq_of_ok hok1
  have hfind2 : findListing (execTx s (.listItem sender nftId price)).listings
      s.nextId = some { id := s.nextId, nft_id := nft.id, nft := nft,
                        price_micro_iota := price, seller := sender } := by
    rw [hs1]
    unfold findListing
    rw [List.find?_cons_of_pos _ (by simp)]
  have hcon2 : tableContains
      (execTx s (.listItem sender nftId price)).listingRegistry.active_listings
      s.nextId = true := by
    rw [hs1]
    simp [tableContains]
  have hok2 := runTx_cancel_eq (execTx s (.listItem sender nftId price)) sender
    s.nextId
    { id := s.nextId, nft_id := nft.id, nft := nft,
      price_micro_iota := price, seller := sender } hfind2 rfl hcon2
  have hs2 := execTx_eq_of_ok hok2
  have hnidv : s.nextId ∉ s.listingRegistry.active_listing_ids := by
    intro hm
    exact Nat.lt_irrefl _ (hfresh _ (hperm.mem_iff.mp hm))
  have hvec : (execTx (execTx s (.listItem sender nftId price))
      (.cancelListing sender s.nextId)).listingRegistry.active_listing_ids =
      s.listingRegistry.active_listing_ids := by
    rw [hs2, hs1]
    simp only [vectorIndexOf_append_self hnidv, if_true,
      vectorSwapRemove_append_self]
  refine ⟨?_, ?_, ?_, ?_, ?_⟩
  · rw [hs1]
    exact hok1
  · rw [hs2]
    exact hok2
  · rw [hs2]
    exact List.mem_cons_self _ _
  · simp only [get_active_listing_ids]
    exact hvec
  · simp only [get_active_listing_ids]
    rw [hvec]
    exact hnidv

theorem c5_list_cancel_roundtrip_witness :
    runTx (execTxList initState [.mint 0 1 5 1 [1]]) (.listItem 1 0 7) =
      .ok (execTx (execTxList initState [.mint 0 1 5 1 [1]])
        (.listItem 1 0 7)) ∧
    (1, { id := 0, amount_kg_co2e := 5, activity_type := 1,
          verification_id := [1], issuance_timestamp_ms := 0 :
            CarbonCreditNFT }) ∈
      (execTx (execTx (execTxList initState [.mint 0 1 5 1 [1]])
        (.listItem 1 0 7)) (.cancelListing 1 1)).nfts ∧
    get_active_listing_ids (execTx (execTx
      (execTxList initState [.mint 0 1 5 1 [1]])
        (.listItem 1 0 7)) (.cancelListing 1 1)).listingRegistry =
      get_active_listing_ids
        (execTxList initState [.mint 0 1 5 1 [1]]).listingRegistry ∧
    1 ∉ get_active_listing_ids (execTx (execTx
      (execTxList initState [.mint 0 1 5 1 [1]])
        (.listItem 1 0 7)) (.cancelListing 1 1)).listingRegistry := by
  have h := c5_list_cancel_roundtrip (execTxList initState [.mint 0 1 5 1 [1]])
    1 0 7
    { id := 0, amount_kg_co2e := 5, activity_type := 1,
      verification_id := [1], issuance_timestamp_ms := 0 }
    (by decide) (by decide)
  exact ⟨h.1, h.2.2.1, h.2.2.2.1, h.2.2.2.2⟩

/-- C3: retiring an owned (non-escrowed) `CarbonCreditNFT` destroys it —
its id is gone from the live objects and, the id counter being monotone,
can never be referenced or reused by any later sequence of operations —
produces exactly one `RetirementCertificate` owned by the caller carrying
the NFT's `amount_kg_co2e` and `verification_id` unchanged, and emits
`RetireNFTEvent` followed by `CertificateMinted`, in that order. -/
theorem c3_retire_nft (s : SystemState) (sender : Addr) (nftId : ObjId)
    (nft : CarbonCreditNFT)
    (hfind : findOwnedNft s.nfts sender nftId = some nft)
    (hlt : nft.id < s.nextId)
    (hcount : (liveIds s).count nft.id = 1) :
    runTx s (.retire sender nftId) = .ok (execTx s (.retire sender nftId)) ∧
    execTx s (.retire sender nftId) =
      { s with
        nfts := removeOwnedNft s.nfts sender nftId
        certs := (sender,
          { id := s.nextId, original_nft_id := nft.id,
            retirer_address := sender,
            retired_amount_kg_co2e := nft.amount_kg_co2e,
            original_verification_id := nft.verification_id,
            retirement_timestamp_ms := s.timestamp }) :: s.certs
        events := s.events ++
          [.retireNFT sender nft.id nft.amount_kg_co2e nft.verification_id,
           .certificateMinted s.nextId sender nft.amount_kg_co2e
             nft.verification_id s.timestamp]
        nextId := s.nextId + 1 } ∧
    (∀ txs : List Tx, nft.id ∉
      liveIds (execTxList (execTx s (.retire sender nftId)) txs)) := by
  have hok := runTx_retire_eq s sender nftId nft hfind
  have hs' := execTx_eq_of_ok hok
  have hpermmap : List.Perm (s.nfts.map (fun q => q.2.id))
      (nft.id :: (removeOwnedNft s.nfts sender nftId).map (fun q => q.2.id)) := by
    unfold findOwnedNft at hfind
    cases hf : s.nfts.find?
        (fun p => decide (p.1 = sender) && decide (p.2.id = nftId)) with
    | none => rw [hf] at hfind; cases hfind
    | some p =>
      rw [hf] at hfind
      simp only [Option.map_some'] at hfind
      injection hfind with hfind
      have hp := (perm_cons_eraseP _ hf).map
        (fun q : Addr × CarbonCreditNFT => q.2.id)
      simp only [List.map_cons] at hp
      rw [hfind] at hp
      exact hp
  have hc1 : (s.nfts.map (fun q => q.2.id)).count nft.id =
      ((removeOwnedNft s.nfts sender nftId).map (fun q => q.2.id)).count
        nft.id + 1 := by
    rw [hpermmap.count_eq]
    simp [List.count_cons_self]
  have hne : ¬ (nft.id = s.nextId) := fun e => Nat.lt_irrefl _ (e ▸ hlt)
  have hne2 : ¬ (s.nextId = nft.id) := fun e => hne e.symm
  have hdead : nft.id ∉ liveIds (execTx s (.retire sender nftId)) := by
    rw [hs', ← List.count_eq_zero]
    simp only [liveIds, List.count_append, List.map_cons, List.count_cons,
      beq_iff_eq, if_neg hne, if_neg hne2, Nat.add_zero] at hcount ⊢
    omega
  refine ⟨by rw [hs']; exact hok, hs', ?_⟩
  intro txs
  refine (deadId_execTxList txs _ ?_ hdead).2
  rw [hs']
  exact Nat.lt_succ_of_lt hlt

theorem c3_retire_nft_witness :
    runTx (execTxList initState [.mint 0 1 5 1 [1]]) (.retire 1 0) =
      .ok (execTx (execTxList initState [.mint 0 1 5 1 [1]]) (.retire 1 0)) ∧
    execTx (execTxList initState [.mint 0 1 5 1 [1]]) (.retire 1 0) =
      { (execTxList initState [.mint 0 1 5 1 [1]]) with
        nfts := removeOwnedNft
          (execTxList initState [.mint 0 1 5 1 [1]]).nfts 1 0
        certs := (1,
          { id := (execTxList initState [.mint 0 1 5 1 [1]]).nextId,
            original_nft_id := 0, retirer_address := 1,
            retired_amount_kg_co2e := 5, original_verification_id := [1],
            retirement_timestamp_ms :=
              (execTxList initState [.mint 0 1 5 1 [1]]).timestamp })
          :: (execTxList initState [.mint 0 1 5 1 [1]]).certs
        events := (execTxList initState [.mint 0 1 5 1 [1]]).events ++
          [.retireNFT 1 0 5 [1],
           .certificateMinted (execTxList initState [.mint 0 1 5 1 [1]]).nextId
             1 5 [1] (execTxList initState [.mint 0 1 5 1 [1]]).timestamp]
        nextId := (execTxList initState [.mint 0 1 5 1 [1]]).nextId + 1 } ∧
    0 ∉ liveIds (execTxList
      (execTx (execTxList initState [.mint 0 1 5 1 [1]]) (.retire 1 0))
      [.mint 0 2 7 1 [2]]) := by
  have h := c3_retire_nft (execTxList initState [.mint 0 1 5 1 [1]]) 1 0
    { id := 0, amount_kg_co2e := 5, activity_type := 1,
      verification_id := [1], issuance_timestamp_ms := 0 }
    (by decide) (by decide) (by decide)
  exact ⟨h.1, h.2.1, h.2.2 [.mint 0 2 7 1 [2]]⟩

/-- C8 (code bug, evaluated on the code): `RetirementCertificate` is
declared `has key, store` (its own doc comment claims it "lacks `store` to
make it non-transferable"), so the IOTA framework's
`transfer::public_transfer` is available on it: an owner can transfer
their retirement certificate to another principal with no module code
involved.  Concretely: address 1 retires NFT 0, receives certificate 1,
and then transfers it to address 2; afterwards the certificate is owned
by address 2 while its `retirer_address` field still says 1. -/
theorem c8_retirement_cert_transferable :
    RetirementCertificate.hasStoreAbility = true ∧
    (execTxList initState [.mint 0 1 5 1 [1], .retire 1 0]).certs =
      [(1, { id := 1, original_nft_id := 0, retirer_address := 1,
             retired_amount_kg_co2e := 5, original_verification_id := [1],
             retirement_timestamp_ms := 0 })] ∧
    runTx (execTxList initState [.mint 0 1 5 1 [1], .retire 1 0])
      (.publicTransferCert 1 2 1) =
      .ok (execTxList initState
        [.mint 0 1 5 1 [1], .retire 1 0, .publicTransferCert 1 2 1]) ∧
    (execTxList initState
      [.mint 0 1 5 1 [1], .retire 1 0, .publicTransferCert 1 2 1]).certs =
      [(2, { id := 1, original_nft_id := 0, retirer_address := 1,
             retired_amount_kg_co2e := 5, original_verification_id := [1],
             retirement_timestamp_ms := 0 })] :=
  ⟨rfl, by decide, by decide, by decide⟩

/-- C9 (counterexample to the claim as stated): after a successful
`freeze_my_certificate`, a second freeze of the same certificate is
rejected, but with the runtime's object-unavailability failure (the
frozen object can no longer be passed by value), not with any module
abort: the contracts define no `AlreadyFrozen` error at all (their only
abort codes are `EInvalidAmount`, `EVerificationIdAlreadyProcessed`,
`EIncorrectPaymentAmount`, `ENotSeller`). -/
theorem c9_double_freeze_counterexample :
    runTx (execTxList initState [.mint 0 1 5 1 [1], .retire 1 0])
      (.freezeCert 1 1) =
      .ok (execTxList initState
        [.mint 0 1 5 1 [1], .retire 1 0, .freezeCert 1 1]) ∧
    runTx (execTxList initState
        [.mint 0 1 5 1 [1], .retire 1 0, .freezeCert 1 1])
      (.freezeCert 1 1) = .error .objectUnavailable ∧
    TxError.objectUnavailable ≠ TxError.abort EInvalidAmount ∧
    TxError.objectUnavailable ≠ TxError.abort EVerificationIdAlreadyProcessed ∧
    TxError.objectUnavailable ≠ TxError.abort EIncorrectPaymentAmount ∧
    TxError.objectUnavailable ≠ TxError.abort ENotSeller :=
  ⟨by decide, by decide, by decide, by decide, by decide, by decide⟩

/-- C9 (amended): after a successful `freeze_my_certificate` of a
certificate (object ids being unique), a second freeze of the same
certificate fails — with the runtime's object-unavailability rejection,
since the frozen object is no longer owned by the sender — and changes
nothing. -/
theorem c9_double_freeze (s : SystemState) (sender : Addr) (certId : ObjId)
    (s' : SystemState)
    (hcnt : s.certs.countP (fun p => decide (p.2.id = certId)) ≤ 1)
    (hok : runTx s (.freezeCert sender certId) = .ok s') :
    runTx s' (.freezeCert sender certId) = .error .objectUnavailable ∧
    execTx s' (.freezeCert sender certId) = s' := by
  simp only [runTx] at hok
  split at hok
  · cases hok
  · rename_i cert heqc
    injection hok with hok
    subst hok
    have hnone : findOwnedCert (removeOwnedCert s.certs sender certId) sender
        certId = none := findOwnedCert_remove_self hcnt
    have herr : runTx
        { s with certs := removeOwnedCert s.certs sender certId,
                 frozenCerts := cert :: s.frozenCerts }
        (.freezeCert sender certId) = .error .objectUnavailable := by
      simp only [runTx, hnone]
    exact ⟨herr, execTx_eq_of_error herr⟩

theorem c9_double_freeze_witness :
    runTx (execTxList initState
        [.mint 0 1 5 1 [1], .retire 1 0, .freezeCert 1 1])
      (.freezeCert 1 1) = .error .objectUnavailable ∧
    execTx (execTxList initState
        [.mint 0 1 5 1 [1], .retire 1 0, .freezeCert 1 1])
      (.freezeCert 1 1) =
      execTxList initState [.mint 0 1 5 1 [1], .retire 1 0, .freezeCert 1 1] :=
  c9_double_freeze (execTxList initState [.mint 0 1 5 1 [1], .retire 1 0])
    1 1
    (execTxList initState [.mint 0 1 5 1 [1], .retire 1 0, .freezeCert 1 1])
    (by decide) (by decide)

/-- C4: in every reachable state the `ListingRegistry` is synchronized
with the undestroyed `Listing` objects: the table is exactly the
`id -> seller` image of the listings, its key list equals the listing-id
list, the enumeration vector is a permutation of it, and all three are
duplicate-free — a 1:1 correspondence maintained by `list_item`,
`buy_item` and `cancel_listing`. -/
theorem c4_listing_registry_sync (s : SystemState) (h : Reachable s) :
    s.listingRegistry.active_listings =
      s.listings.map (fun l => (l.id, l.seller)) ∧
    s.listingRegistry.active_listings.map Prod.fst =
      s.listings.map Listing.id ∧
    List.Perm s.listingRegistry.active_listing_ids
      (s.listings.map Listing.id) ∧
    (s.listings.map Listing.id).Nodup ∧
    s.listingRegistry.active_listing_ids.Nodup := by
  obtain ⟨hfresh, hnodup, htbl, hperm⟩ := reachable_regInv h
  have hmapfst : s.listingRegistry.active_listings.map Prod.fst =
      s.listings.map Listing.id := by
    rw [htbl, List.map_map]
    rfl
  exact ⟨htbl, hmapfst, hperm, hnodup, hperm.symm.nodup hnodup⟩

theorem c4_listing_registry_sync_witness :
    (execTxList initState
      [.mint 0 1 5 1 [1], .mint 0 2 7 1 [2], .listItem 1 0 10,
       .listItem 2 1 20]).listingRegistry.active_listings =
      (execTxList initState
        [.mint 0 1 5 1 [1], .mint 0 2 7 1 [2], .listItem 1 0 10,
         .listItem 2 1 20]).listings.map (fun l => (l.id, l.seller)) ∧
    (execTxList initState
      [.mint 0 1 5 1 [1], .mint 0 2 7 1 [2], .listItem 1 0 10,
       .listItem 2 1 20]).listingRegistry.active_listings.map Prod.fst =
      (execTxList initState
        [.mint 0 1 5 1 [1], .mint 0 2 7 1 [2], .listItem 1 0 10,
         .listItem 2 1 20]).listings.map Listing.id ∧
    List.Perm (execTxList initState
      [.mint 0 1 5 1 [1], .mint 0 2 7 1 [2], .listItem 1 0 10,
       .listItem 2 1 20]).listingRegistry.active_listing_ids
      ((execTxList initState
        [.mint 0 1 5 1 [1], .mint 0 2 7 1 [2], .listItem 1 0 10,
         .listItem 2 1 20]).listings.map Listing.id) ∧
    ((execTxList initState
      [.mint 0 1 5 1 [1], .mint 0 2 7 1 [2], .listItem 1 0 10,
       .listItem 2 1 20]).listings.map Listing.id).Nodup ∧
    (execTxList initState
      [.mint 0 1 5 1 [1], .mint 0 2 7 1 [2], .listItem 1 0 10,
       .listItem 2 1 20]).listingRegistry.active_listing_ids.Nodup :=
  c4_listing_registry_sync
    (execTxList initState
      [.mint 0 1 5 1 [1], .mint 0 2 7 1 [2], .listItem 1 0 10,
       .listItem 2 1 20])
    ⟨[.mint 0 1 5 1 [1], .mint 0 2 7 1 [2], .listItem 1 0 10,
      .listItem 2 1 20], rfl⟩
